import Mathlib

/-!
# Linear ranges `X..Y` (libxorp `range.hh`)

A shallow embedding of the `Range<T>` class template and of the classes `U32Range`
and `IPvXRange<T>` with their string constructors and `str()`, followed by theorems
about the comparison operators, the delimiter grammar and the string round trip.

Conventions of the embedding:

* a C string / `std::string` is a `List Char`, one list element per `char`;
* `uint32_t` values are natural numbers below `2 ^ 32`, reduced `% 2 ^ 32`
  where the code assigns a wider value;
* a constructor that can throw returns an `Except` value; the element type of
  `IPvXRange<T>` is a parameter, given by its operations (`ElemOps`).
-/

namespace Xorp

/-! ## Library functions used by `range.hh` -/

/-- Width of `unsigned long` on the target: 32 bits (ILP32, LLP64) or 64 bits (LP64). -/
inductive LongWidth
  | w32
  | w64
  deriving DecidableEq, Repr

/-- Number of value bits of `unsigned long`. -/
def LongWidth.bits : LongWidth → Nat
  | .w32 => 32
  | .w64 => 64

/-- The constant `ULONG_MAX` of `<limits.h>`. -/
def ULONG_MAX (lw : LongWidth) : Nat := 2 ^ lw.bits - 1

/-- The constant `UINT32_MAX + 1`, the modulus of `uint32_t` arithmetic. -/
def U32_MOD : Nat := 4294967296

/-- The exceptions that can leave a string constructor: `InvalidString` raised by
`xorp_throw(InvalidString, msg)`, and `std::out_of_range` raised by
`std::string::substr` when the start position is beyond the end. -/
inductive Exception
  | InvalidString (why : String)
  | out_of_range
  deriving DecidableEq, Repr

/-- The delimiter literal `".."`. -/
def DELIM : List Char := ['.', '.']

/-- The search loop of `std::string::find`: the current suffix is scanned, its first
character having index `i`; the result is the index of the first occurrence of
`pat`, or `none` for `std::string::npos`. -/
def findFrom (pat : List Char) : List Char → Nat → Option Nat
  | [], i => if pat.isPrefixOf [] then some i else none
  | c :: cs, i => if pat.isPrefixOf (c :: cs) then some i else findFrom pat cs (i + 1)

/-- The call `s.find(pat, 0)`. -/
def find (s pat : List Char) : Option Nat := findFrom pat s 0

/-- Conversion of a `size_t` value to `int` (32 bits, two's complement): the value
is reduced modulo `2 ^ 32` into `[-2 ^ 31, 2 ^ 31)`, which is what the compilers do
for a value that `int` cannot hold (and what C++20 prescribes). -/
def toInt (n : Nat) : Int :=
  if n % 4294967296 < 2147483648 then ((n % 4294967296 : Nat) : Int)
  else ((n % 4294967296 : Nat) : Int) - 4294967296

/-- The initialisation `int delim = from_string.find("..", 0)`: `npos` has all bits
set and converts to `-1`; a position converts by `toInt`. -/
def delimOf : Option Nat → Int
  | none => -1
  | some p => toInt p

/-- The result of an addition in `int` (32 bits, two's complement): reduced modulo
`2 ^ 32` into `[-2 ^ 31, 2 ^ 31)`. An overflow is undefined in C++; the compiled code
wraps around. -/
def wrapInt (x : Int) : Int :=
  if x % 4294967296 < 2147483648 then x % 4294967296 else x % 4294967296 - 4294967296

/-- Conversion of an `int` to `size_t`, as for the first argument of `substr`: the
value modulo `2 ^ 64`, so that a negative `int` becomes a position beyond every
string. The type `size_t` has 64 bits wherever a string of `2 ^ 31` characters or more
can be held together with its copy `from_string`; for shorter strings every `int`
converted here is in `[0, 2 ^ 31)` and the width plays no role. -/
def toSize (x : Int) : Nat := (x % 18446744073709551616).toNat

/-- The call `s.substr(pos, n)`: the characters from index `pos`, at most `n` of
them; it throws `std::out_of_range` when `pos > s.size()`. -/
def substr (s : List Char) (pos n : Nat) : Except Exception (List Char) :=
  if pos > s.length then .error .out_of_range else .ok ((s.drop pos).take n)

/-- The classification `isspace` of `<ctype.h>` in the "C" locale. -/
def isspace (c : Char) : Bool :=
  c == ' ' || c == '\t' || c == '\n' || c == '\x0b' || c == '\x0c' || c == '\r'

/-- The classification `isdigit` of `<ctype.h>`. -/
def isdigit (c : Char) : Bool := decide ('0'.toNat ≤ c.toNat ∧ c.toNat ≤ '9'.toNat)

/-- Value of a decimal digit character. -/
def digitVal (c : Char) : Nat := c.toNat - '0'.toNat

/-- The digit loop of `strtoul` in base 10: consumes the longest prefix of decimal
digits, accumulating its (unbounded) value onto `acc`. -/
def accumulate (acc : Nat) : List Char → Nat
  | [] => acc
  | c :: cs => if isdigit c then accumulate (acc * 10 + digitVal c) cs else acc

/-- The optional sign of the subject sequence of `strtoul`: whether it is a minus
sign, and the rest of the input. -/
def takeSign : List Char → Bool × List Char
  | '-' :: cs => (true, cs)
  | '+' :: cs => (false, cs)
  | cs => (false, cs)

/-- The C library call `strtoul(s, NULL, 10)` (ISO C 7.20.1.4): leading white space
is skipped, an optional sign is read, then the longest sequence of decimal digits;
no digits give 0; a value above `ULONG_MAX` gives `ULONG_MAX`; after a minus sign
the value is negated in `unsigned long`. -/
def strtoul (lw : LongWidth) (s : List Char) : Nat :=
  let sg := takeSign (s.dropWhile isspace)
  let v := accumulate 0 sg.2
  if v > ULONG_MAX lw then ULONG_MAX lw
  else if sg.1 then (2 ^ lw.bits - v) % 2 ^ lw.bits
  else v

/-- Decimal rendering of an unsigned integer by `ostream::operator<<` (default
flags, classic locale): the digits are produced from the least significant one,
each put in front of the ones already produced, until the quotient is zero. -/
def decimal (n : Nat) : List Char := Nat.toDigits 10 n

/-! ## `Range<T>` -/

/-- The class template `Range<T>`: the two inclusive boundaries. -/
structure Range (α : Type) where
  low : α
  high : α
  deriving DecidableEq, Repr

namespace Range

variable {α : Type} [LinearOrder α]

/-- Constructor from a single value, `Range(T value)`. -/
def single (value : α) : Range α := { low := value, high := value }

/-- Constructor from two values, `Range(T low, T high)`. -/
def mk2 (low high : α) : Range α := { low := low, high := high }

/-- The member `operator==(const T& other)`. -/
def eq (r : Range α) (other : α) : Bool := decide (r.low ≤ other) && decide (r.high ≥ other)

/-- The member `operator!=(const T& other)`. -/
def ne (r : Range α) (other : α) : Bool := decide (r.low > other) || decide (r.high < other)

/-- The member `operator<(const T& other)`. -/
def lt (r : Range α) (other : α) : Bool := decide (r.high < other)

/-- The member `operator<=(const T& other)`. -/
def le (r : Range α) (other : α) : Bool := decide (r.low ≤ other)

/-- The member `operator>(const T& other)`. -/
def gt (r : Range α) (other : α) : Bool := decide (r.low > other)

/-- The member `operator>=(const T& other)`. -/
def ge (r : Range α) (other : α) : Bool := decide (r.high ≥ other)

end Range

/-! ## `U32Range` -/

/-- The class `U32Range`, a `Range<uint32_t>`. -/
abbrev U32Range := Range Nat

namespace U32Range

/-- Default constructor, `U32Range()`. -/
def default : U32Range := { low := 0, high := 0 }

/-- Constructor from a string, `U32Range(const char *from_cstr)`.

The base constructor `Range<uint32_t>()` runs first and sets both members to 0, which
the body overwrites or, when it throws, discards. The position found is stored in
`int delim`. The values returned by `strtoul` are `unsigned long` and are stored into
the `uint32_t` members. In the second branch `delim` is positive and at most the
delimiter position, so `length() - delim` does not wrap around in `size_t` (see
`delim_add_two_le_length`); the start `delim + 2` of the right token is computed in
`int` and then converted to `size_t`. -/
def ofString (lw : LongWidth) (from_cstr : List Char) : Except Exception U32Range :=
  let from_string := from_cstr
  let delim : Int := delimOf (find from_string DELIM)
  if delim < 0 then
    .ok { low := strtoul lw from_cstr % U32_MOD, high := strtoul lw from_cstr % U32_MOD }
  else if delim > 0 ∧ from_string.length - delim.toNat > 2 then do
    let lo ← substr from_string 0 delim.toNat
    let hi ← substr from_string (toSize (wrapInt (delim + 2))) from_string.length
    .ok { low := strtoul lw lo % U32_MOD, high := strtoul lw hi % U32_MOD }
  else
    .error (.InvalidString "Syntax error")

/-- Conversion to a human-readable format, `U32Range::str()`. -/
def str (r : U32Range) : List Char :=
  let os := decimal r.low
  if r.low < r.high then os ++ DELIM ++ decimal r.high else os

end U32Range

/-! ## `IPvXRange<T>` -/

/-- The operations of the element type `T` that `IPvXRange<T>` uses. The header has
only the declarations `class IPv4;` and `class IPv6;`, so the element type is a
parameter. `ofZero` is the conversion of the constant 0 to `T` in the statement
`_low = _high = 0` of the base constructor `Range<T>()`; for a `T` whose conversion
from 0 is `T(const char *)` it is the call `T(NULL)`. `ofString` is the constructor
`T(const char *)`. Both may throw a value of type `ε`. `str` is `T::str()`; `lt` is
`operator<` of `T`. The default constructor and the assignment of `T` are taken not to
throw. -/
structure ElemOps (ε T : Type) where
  ofZero : Except ε T
  ofString : List Char → Except ε T
  str : T → List Char
  lt : T → T → Bool

/-- What can leave the string constructor of `IPvXRange<T>`: an exception thrown by the
code of the constructor itself (`own`), or the exception thrown by a constructor of
`T`, which nothing catches (`element`). The tag is the place of the throw statement:
the exception object itself is handed on unchanged in both cases. -/
inductive IPvXFailure (ε : Type)
  | own (e : Exception)
  | element (e : ε)
  deriving DecidableEq, Repr

/-- The class template `IPvXRange<T>`, a `Range<T>`. -/
abbrev IPvXRange (T : Type) := Range T

namespace IPvXRange

variable {ε T : Type}

/-- Constructor from a string, `IPvXRange(const char *from_cstr)`. The base
constructor `Range<T>()` runs before the body and converts 0 to `T`; the body then
overwrites the members. In the branch with two tokens the left token is converted
before the right one is cut out, and the start `delim + 2` of the right token is
computed in `int` and then converted to `size_t`. -/
def ofString (ops : ElemOps ε T) (from_cstr : List Char) :
    Except (IPvXFailure ε) (IPvXRange T) :=
  match ops.ofZero with
  | .error e => .error (.element e)
  | .ok _ =>
    let from_string := from_cstr
    let delim : Int := delimOf (find from_string DELIM)
    if delim < 0 then do
      let v ← (ops.ofString from_cstr).mapError IPvXFailure.element
      .ok { low := v, high := v }
    else if delim > 0 ∧ from_string.length - delim.toNat > 2 then do
      let lo ← (substr from_string 0 delim.toNat).mapError IPvXFailure.own
      let l ← (ops.ofString lo).mapError IPvXFailure.element
      let hi ← (substr from_string (toSize (wrapInt (delim + 2)))
        from_string.length).mapError IPvXFailure.own
      let h ← (ops.ofString hi).mapError IPvXFailure.element
      .ok { low := l, high := h }
    else
      .error (.own (.InvalidString "Syntax error"))

/-- Conversion to a human-readable format, `IPvXRange::str()`. -/
def str (ops : ElemOps ε T) (r : IPvXRange T) : List Char :=
  let os := ops.str r.low
  if ops.lt r.low r.high then os ++ DELIM ++ ops.str r.high else os

end IPvXRange

/-! ## The delimiter grammar, and a 4-byte address type -/

/-- The token or tokens that a range string is split into. -/
inductive Tokens
  | single (tok : List Char)
  | pair (left right : List Char)
  deriving DecidableEq, Repr

/-- The grammar in the words of the specification: a string without `".."` is a single
token; otherwise the first `".."` must come after the start of the string and have at
least one character after it, and the tokens are the text before it and the text after
it; any other shape is the failure `InvalidString` with message "Syntax error". -/
def grammar (s : List Char) : Except Exception Tokens :=
  match find s DELIM with
  | none => .ok (.single s)
  | some p =>
    if 0 < p ∧ p + 2 < s.length then .ok (.pair (s.take p) (s.drop (p + 2)))
    else .error (.InvalidString "Syntax error")

/-- Conversion of the tokens as `U32Range` does it, by `strtoul` into `uint32_t`. -/
def U32Range.ofTokens (lw : LongWidth) : Tokens → U32Range
  | .single tok => { low := strtoul lw tok % U32_MOD, high := strtoul lw tok % U32_MOD }
  | .pair left right => { low := strtoul lw left % U32_MOD, high := strtoul lw right % U32_MOD }

/-- Conversion of the tokens as `IPvXRange<T>` does it, by the string constructor of
`T`: a single token once, a pair from left to right. -/
def IPvXRange.ofTokens {ε T : Type} (ops : ElemOps ε T) :
    Tokens → Except (IPvXFailure ε) (IPvXRange T)
  | .single tok => do
    let v ← (ops.ofString tok).mapError IPvXFailure.element
    .ok { low := v, high := v }
  | .pair left right => do
    let l ← (ops.ofString left).mapError IPvXFailure.element
    let h ← (ops.ofString right).mapError IPvXFailure.element
    .ok { low := l, high := h }

/-- A split followed by the conversion of its tokens as `IPvXRange<T>` does it; a
failure of the split is a failure of the constructor itself. -/
def IPvXRange.ofSplit {ε T : Type} (ops : ElemOps ε T) :
    Except Exception Tokens → Except (IPvXFailure ε) (IPvXRange T)
  | .error e => .error (.own e)
  | .ok tk => IPvXRange.ofTokens ops tk

/-- Modelled from the spec: the 4-byte address element type `IPv4`, of which the header
has only the declaration `class IPv4;`. It is a 32-bit address with its own string
constructor and `str()` renderer, here for the dotted-decimal notation, and the
numeric order. -/
structure IPv4 where
  addr : Nat
  deriving DecidableEq, Repr

namespace IPv4

/-- One decimal octet of a dotted-decimal address. -/
def octet (tok : List Char) : Option Nat :=
  if tok ≠ [] ∧ tok.all isdigit = true ∧ accumulate 0 tok < 256 then some (accumulate 0 tok)
  else none

/-- The string constructor of the address type: four octets separated by dots;
anything else throws `InvalidString`. -/
def ofString (s : List Char) : Except Exception IPv4 :=
  match (s.splitOn '.').map octet with
  | [some a, some b, some c, some d] => .ok { addr := ((a * 256 + b) * 256 + c) * 256 + d }
  | _ => .error (.InvalidString "Bad IPv4")

/-- The renderer `str()` of the address type, in dotted-decimal notation. -/
def str (x : IPv4) : List Char :=
  decimal (x.addr / 16777216 % 256) ++ '.' :: decimal (x.addr / 65536 % 256)
    ++ '.' :: decimal (x.addr / 256 % 256) ++ '.' :: decimal (x.addr % 256)

/-- The address type as an element type of `IPvXRange`; the constant 0 converts to the
address 0.0.0.0. -/
def ops : ElemOps Exception IPv4 :=
  { ofZero := .ok { addr := 0 }, ofString := ofString, str := str,
    lt := fun x y => decide (x.addr < y.addr) }

end IPv4

/-! ## Element types for examples -/

/-- An element type whose string constructor accepts every token and keeps it as it
is: the range built shows which tokens its constructor passed on. -/
def ElemOps.echo : ElemOps Empty (List Char) :=
  { ofZero := .ok [], ofString := fun tok => .ok tok, str := fun x => x,
    lt := fun _ _ => false }

/-- An element type whose string constructor rejects every token, throwing the token
it was given. -/
def ElemOps.reject : ElemOps (List Char) Unit :=
  { ofZero := .ok (), ofString := fun tok => .error tok, str := fun _ => [],
    lt := fun _ _ => false }

/-- An element type with two values, rendered as `"x."` and `"y"`, whose string
constructor accepts these two renderings and nothing else. -/
def ElemOps.trailingDot : ElemOps Unit Bool :=
  { ofZero := .ok false
    ofString := fun tok =>
      if tok = ['x', '.'] then .ok true else if tok = ['y'] then .ok false else .error ()
    str := fun v => if v then ['x', '.'] else ['y']
    lt := fun a b => a && !b }

/-! ## Predicates used to state the properties -/

/-- The input after the digits: empty, or starting with a character that is not a digit. -/
def StopsDigits (t : List Char) : Prop := ∀ c, t.head? = some c → isdigit c = false

instance (t : List Char) : Decidable (StopsDigits t) := by
  unfold StopsDigits
  cases t with
  | nil => exact isTrue (by simp)
  | cons c cs =>
    exact decidable_of_iff (isdigit c = false) (by simp)

/-- The two characters of `s` at indices `i` and `i + 1` are the delimiter `".."`. -/
def OccursAt (s : List Char) (i : Nat) : Prop := (s.drop i).take 2 = DELIM

instance (s : List Char) (i : Nat) : Decidable (OccursAt s i) :=
  inferInstanceAs (Decidable ((s.drop i).take 2 = DELIM))

/-- The first occurrence of `".."` in `s` starts at index `i`. -/
def FirstOccAt (s : List Char) (i : Nat) : Prop := OccursAt s i ∧ ∀ j, j < i → ¬ OccursAt s j

instance (s : List Char) (i : Nat) : Decidable (FirstOccAt s i) :=
  inferInstanceAs (Decidable (OccursAt s i ∧ ∀ j, j < i → ¬ OccursAt s j))

/-- The string `s` contains `".."`, at some index `i` of `s`. -/
def ContainsDelim (s : List Char) : Prop := ∃ i, i < s.length ∧ OccursAt s i

instance (s : List Char) : Decidable (ContainsDelim s) :=
  inferInstanceAs (Decidable (∃ i, i < s.length ∧ OccursAt s i))

/-- The delimiter placement that the string constructors reject: `s` contains `".."`
and its first occurrence starts at index 0 or is the last two characters of `s`. -/
def BadDelim (s : List Char) : Prop :=
  ∃ i, i < s.length ∧ (FirstOccAt s i ∧ (i = 0 ∨ i + 2 = s.length))

instance (s : List Char) : Decidable (BadDelim s) :=
  inferInstanceAs (Decidable (∃ i, i < s.length ∧ (FirstOccAt s i ∧ (i = 0 ∨ i + 2 = s.length))))

end Xorp

/-! # Theorems -/

namespace Xorp

/-! ## Characters -/

theorem digitChar_isdigit (d : Nat) (h : d < 10) : isdigit (Nat.digitChar d) = true := by
  interval_cases d <;> rfl

theorem digitVal_digitChar (d : Nat) (h : d < 10) : digitVal (Nat.digitChar d) = d := by
  interval_cases d <;> rfl

theorem isdigit_ne_dot (c : Char) (h : isdigit c = true) : c ≠ '.' := by
  rintro rfl; revert h; decide

theorem isdigit_not_space (c : Char) (h : isdigit c = true) : isspace c = false := by
  simp only [isdigit, decide_eq_true_eq] at h
  simp only [isspace, Bool.or_eq_false_iff, beq_eq_false_iff_ne, ne_eq]
  refine ⟨⟨⟨⟨⟨?_, ?_⟩, ?_⟩, ?_⟩, ?_⟩, ?_⟩ <;> rintro rfl <;> revert h <;> decide

theorem takeSign_of_isdigit (c : Char) (cs : List Char) (h : isdigit c = true) :
    takeSign (c :: cs) = (false, c :: cs) := by
  have h1 : c ≠ '-' := by rintro rfl; revert h; decide
  have h2 : c ≠ '+' := by rintro rfl; revert h; decide
  unfold takeSign
  split
  · next heq => simp at heq; exact absurd heq.1 h1
  · next heq => simp at heq; exact absurd heq.1 h2
  · rfl

/-! ## Decimal rendering -/

theorem toDigitsCore_append (f n : Nat) (ds : List Char) :
    Nat.toDigitsCore 10 f n ds = Nat.toDigitsCore 10 f n [] ++ ds := by
  induction f generalizing n ds with
  | zero => simp [Nat.toDigitsCore]
  | succ f ih =>
    simp only [Nat.toDigitsCore]
    split
    · simp
    · rw [ih (n / 10) (Nat.digitChar (n % 10) :: ds), ih (n / 10) [Nat.digitChar (n % 10)]]
      simp

theorem toDigitsCore_fuel (f g n : Nat) (hf : n < f) (hg : n < g) :
    Nat.toDigitsCore 10 f n [] = Nat.toDigitsCore 10 g n [] := by
  induction f generalizing g n with
  | zero => omega
  | succ f ih =>
    cases g with
    | zero => omega
    | succ g =>
      simp only [Nat.toDigitsCore]
      split
      · rfl
      · next hne =>
        rw [toDigitsCore_append f, toDigitsCore_append g]
        have h1 : n / 10 < f := by omega
        have h2 : n / 10 < g := by omega
        rw [ih g (n / 10) h1 h2]

theorem decimal_of_lt (n : Nat) (h : n < 10) : decimal n = [Nat.digitChar n] := by
  have h0 : n / 10 = 0 := by omega
  have h1 : n % 10 = n := by omega
  simp [decimal, Nat.toDigits, Nat.toDigitsCore, h0, h1]

theorem decimal_of_ge (n : Nat) (h : 10 ≤ n) :
    decimal n = decimal (n / 10) ++ [Nat.digitChar (n % 10)] := by
  have h0 : n / 10 ≠ 0 := by omega
  unfold decimal Nat.toDigits
  conv_lhs => simp only [Nat.toDigitsCore, h0, if_false]
  rw [toDigitsCore_append]
  congr 1
  apply toDigitsCore_fuel <;> omega

theorem decimal_all_digits (n : Nat) : ∀ c ∈ decimal n, isdigit c = true := by
  induction n using Nat.strong_induction_on with
  | _ n ih =>
    by_cases h : n < 10
    · rw [decimal_of_lt n h]
      intro c hc
      rw [List.mem_singleton] at hc
      subst hc
      exact digitChar_isdigit n h
    · rw [decimal_of_ge n (by omega)]
      intro c hc
      rcases List.mem_append.mp hc with hc | hc
      · exact ih (n / 10) (by omega) c hc
      · rw [List.mem_singleton] at hc
        subst hc
        exact digitChar_isdigit (n % 10) (by omega)

theorem decimal_ne_nil (n : Nat) : decimal n ≠ [] := by
  by_cases h : n < 10
  · rw [decimal_of_lt n h]; simp
  · rw [decimal_of_ge n (by omega)]; simp

theorem decimal_length_pos (n : Nat) : 0 < (decimal n).length :=
  List.length_pos.mpr (decimal_ne_nil n)

theorem decimal_length_le (n e : Nat) (he : 0 < e) (h : n < 10 ^ e) :
    (decimal n).length ≤ e :=
  Nat.toDigitsCore_length 10 (by decide) (n + 1) n e h he

theorem decimal_length_u32 (n : Nat) (h : n < U32_MOD) : (decimal n).length ≤ 10 :=
  decimal_length_le n 10 (by decide) (by unfold U32_MOD at h; omega)

/-- The first character of a decimal rendering is a digit. -/
theorem decimal_cons (n : Nat) : ∃ c cs, decimal n = c :: cs ∧ isdigit c = true := by
  cases hd : decimal n with
  | nil => exact absurd hd (decimal_ne_nil n)
  | cons c cs =>
    exact ⟨c, cs, rfl, decimal_all_digits n c (by rw [hd]; exact List.mem_cons_self c cs)⟩

/-! ## `strtoul` on decimal renderings -/

theorem accumulate_stop (acc : Nat) (t : List Char) (ht : StopsDigits t) :
    accumulate acc t = acc := by
  cases t with
  | nil => rfl
  | cons c cs =>
    have := ht c rfl
    simp [accumulate, this]

theorem accumulate_decimal (n : Nat) : ∀ (acc : Nat) (t : List Char),
    accumulate acc (decimal n ++ t) = accumulate (acc * 10 ^ (decimal n).length + n) t := by
  induction n using Nat.strong_induction_on with
  | _ n ih =>
    intro acc t
    by_cases h : n < 10
    · rw [decimal_of_lt n h]
      simp [accumulate, digitChar_isdigit n h, digitVal_digitChar n h]
    · rw [decimal_of_ge n (by omega), List.append_assoc, ih (n / 10) (by omega)]
      have hd : n % 10 < 10 := by omega
      simp only [List.singleton_append, accumulate, digitChar_isdigit _ hd, if_true,
        digitVal_digitChar _ hd, List.length_append, List.length_singleton]
      congr 1
      rw [pow_succ]
      have := Nat.div_add_mod n 10
      nlinarith [this]

theorem accumulate_zero_decimal (n : Nat) (t : List Char) (ht : StopsDigits t) :
    accumulate 0 (decimal n ++ t) = n := by
  rw [accumulate_decimal, accumulate_stop _ _ ht]
  simp

theorem u32_le_ULONG_MAX (lw : LongWidth) (n : Nat) (h : n < U32_MOD) : n ≤ ULONG_MAX lw := by
  unfold U32_MOD at h
  cases lw <;> simp only [ULONG_MAX, LongWidth.bits] <;> omega

/-- On the decimal rendering of `n`, followed by anything that does not continue the
digits, `strtoul` returns `n` (for `n` in the range of `uint32_t`). -/
theorem strtoul_decimal (lw : LongWidth) (n : Nat) (t : List Char) (h : n < U32_MOD)
    (ht : StopsDigits t) : strtoul lw (decimal n ++ t) = n := by
  obtain ⟨c, cs, hd, hc⟩ := decimal_cons n
  have hdrop : (decimal n ++ t).dropWhile isspace = decimal n ++ t := by
    rw [hd, List.cons_append, List.dropWhile_cons, isdigit_not_space c hc]
    simp
  have hsign : takeSign (decimal n ++ t) = (false, decimal n ++ t) := by
    rw [hd, List.cons_append]
    exact takeSign_of_isdigit c _ hc
  have hle := u32_le_ULONG_MAX lw n h
  simp only [strtoul, hdrop, hsign, accumulate_zero_decimal n t ht]
  rw [if_neg (by omega)]
  simp

/-! ## `find` and the first occurrence of the delimiter -/

theorem isPrefixOf_DELIM (s : List Char) : DELIM.isPrefixOf s = true ↔ OccursAt s 0 := by
  unfold OccursAt DELIM
  match s with
  | [] => simp
  | [a] => simp [List.isPrefixOf]
  | a :: b :: t =>
    simp only [List.isPrefixOf, Bool.and_true, Bool.and_eq_true, beq_iff_eq, List.drop_zero,
      List.take_succ_cons, List.take_zero, List.cons.injEq, and_true]
    constructor <;> rintro ⟨h1, h2⟩ <;> exact ⟨h1.symm, h2.symm⟩

theorem occursAt_succ (c : Char) (cs : List Char) (j : Nat) :
    OccursAt (c :: cs) (j + 1) ↔ OccursAt cs j := by
  simp [OccursAt]

theorem occursAt_add_two_le (s : List Char) (i : Nat) (h : OccursAt s i) :
    i + 2 ≤ s.length := by
  unfold OccursAt DELIM at h
  have := congrArg List.length h
  simp at this
  omega

theorem containsDelim_iff (s : List Char) : ContainsDelim s ↔ ∃ i, OccursAt s i :=
  ⟨fun ⟨i, _, h⟩ => ⟨i, h⟩,
    fun ⟨i, h⟩ => ⟨i, by have := occursAt_add_two_le s i h; omega, h⟩⟩

theorem badDelim_iff (s : List Char) :
    BadDelim s ↔ ∃ i, FirstOccAt s i ∧ (i = 0 ∨ i + 2 = s.length) :=
  ⟨fun ⟨i, _, h⟩ => ⟨i, h⟩,
    fun ⟨i, h⟩ => ⟨i, by have := occursAt_add_two_le s i h.1.1; omega, h⟩⟩

theorem findFrom_none (s : List Char) (k : Nat) :
    findFrom DELIM s k = none ↔ ∀ j, ¬ OccursAt s j := by
  induction s generalizing k with
  | nil => simp [findFrom, OccursAt, DELIM]
  | cons c cs ih =>
    unfold findFrom
    by_cases h : DELIM.isPrefixOf (c :: cs) = true
    · simp only [h, if_true]
      constructor
      · intro h'; cases h'
      · intro h'; exact absurd ((isPrefixOf_DELIM _).mp h) (h' 0)
    · rw [if_neg h, ih]
      constructor
      · intro h' j
        cases j with
        | zero => exact fun hj => h ((isPrefixOf_DELIM _).mpr hj)
        | succ j => rw [occursAt_succ]; exact h' j
      · intro h' j hj
        exact h' (j + 1) ((occursAt_succ c cs j).mpr hj)

theorem findFrom_some (s : List Char) (k i : Nat) :
    findFrom DELIM s k = some i ↔ ∃ p, i = k + p ∧ FirstOccAt s p := by
  induction s generalizing k with
  | nil =>
    constructor
    · intro h
      simp [findFrom, DELIM, List.isPrefixOf] at h
    · rintro ⟨p, -, hp, -⟩
      have := occursAt_add_two_le [] p hp
      simp at this
  | cons c cs ih =>
    unfold findFrom
    by_cases h : DELIM.isPrefixOf (c :: cs) = true
    · simp only [h, if_true, Option.some.injEq]
      have h0 := (isPrefixOf_DELIM _).mp h
      constructor
      · intro hk
        exact ⟨0, by omega, h0, fun j hj => by omega⟩
      · rintro ⟨p, hp, -, hfirst⟩
        by_cases hp0 : p = 0
        · omega
        · exact absurd h0 (hfirst 0 (by omega))
    · rw [if_neg h, ih]
      have h0 : ¬ OccursAt (c :: cs) 0 := fun hj => h ((isPrefixOf_DELIM _).mpr hj)
      constructor
      · rintro ⟨p, hp, hocc, hfirst⟩
        refine ⟨p + 1, by omega, (occursAt_succ c cs p).mpr hocc, ?_⟩
        intro j hj
        cases j with
        | zero => exact h0
        | succ j => rw [occursAt_succ]; exact hfirst j (by omega)
      · rintro ⟨p, hp, hocc, hfirst⟩
        cases p with
        | zero => exact absurd hocc h0
        | succ p =>
          refine ⟨p, by omega, (occursAt_succ c cs p).mp hocc, ?_⟩
          intro j hj
          rw [← occursAt_succ c cs j]
          exact hfirst (j + 1) (by omega)

theorem find_none (s : List Char) : find s DELIM = none ↔ ¬ ContainsDelim s := by
  rw [containsDelim_iff]
  unfold find
  rw [findFrom_none]
  simp

theorem find_some (s : List Char) (i : Nat) : find s DELIM = some i ↔ FirstOccAt s i := by
  unfold find
  rw [findFrom_some]
  simp

theorem firstOccAt_unique (s : List Char) (i j : Nat) (hi : FirstOccAt s i)
    (hj : FirstOccAt s j) : i = j := by
  rcases Nat.lt_trichotomy i j with h | h | h
  · exact absurd hi.1 (hj.2 i h)
  · exact h
  · exact absurd hj.1 (hi.2 j h)

theorem toInt_of_lt (p : Nat) (h : p < 2147483648) : toInt p = (p : Int) := by
  unfold toInt
  have : p % 4294967296 = p := Nat.mod_eq_of_lt (by omega)
  rw [this, if_pos h]

theorem toInt_toNat_le (p : Nat) : (toInt p).toNat ≤ p := by
  unfold toInt
  have := Nat.mod_le p 4294967296
  split <;> omega

/-- Whenever `int delim` is not negative, `delim + 2` is at most the length of the
string: the subtraction `length() - delim` of the constructors is exact. -/
theorem delim_add_two_le_length (s : List Char) (h : 0 ≤ delimOf (find s DELIM)) :
    (delimOf (find s DELIM)).toNat + 2 ≤ s.length := by
  cases hf : find s DELIM with
  | none => rw [hf] at h; simp [delimOf] at h
  | some p =>
    have h1 := occursAt_add_two_le s p ((find_some s p).mp hf).1
    have h2 := toInt_toNat_le p
    simp only [delimOf]
    omega

/-! ## The three branches of `U32Range(const char *)` -/

theorem substr_ok (s : List Char) (pos n : Nat) (h : pos ≤ s.length) :
    substr s pos n = .ok ((s.drop pos).take n) := by
  unfold substr
  rw [if_neg (by omega)]

/-- No delimiter: the whole string is one token. -/
theorem U32Range.ofString_of_find_none (lw : LongWidth) (s : List Char)
    (h : find s DELIM = none) :
    U32Range.ofString lw s
      = .ok { low := strtoul lw s % U32_MOD, high := strtoul lw s % U32_MOD } := by
  simp [U32Range.ofString, h, delimOf]

theorem toSize_wrapInt_add_two (d : Nat) (h : d + 2 < 2147483648) :
    toSize (wrapInt ((d : Int) + 2)) = d + 2 := by
  have h1 : ((d : Int) + 2) % 4294967296 = (d : Int) + 2 := by omega
  have h2 : ((d : Int) + 2) % 18446744073709551616 = (d : Int) + 2 := by omega
  unfold toSize wrapInt
  rw [h1, if_pos (by omega), h2]
  omega

/-- The right token starts where it should as long as `delim + 2` fits in `int`. -/
theorem substr_right (s : List Char) (d : Nat) (h : d + 2 ≤ s.length)
    (hfit : d + 2 < 2147483648) :
    substr s (toSize (wrapInt ((d : Int) + 2))) s.length = .ok (s.drop (d + 2)) := by
  rw [toSize_wrapInt_add_two d hfit, substr_ok s (d + 2) s.length h,
    List.take_of_length_le (by rw [List.length_drop]; omega)]

theorem substr_left (s : List Char) (d : Nat) : substr s 0 d = .ok (s.take d) := by
  rw [substr_ok s 0 d (Nat.zero_le _), List.drop_zero]

/-- The branch with two tokens, for a value `d` of `int delim` with `d + 2` in the
range of `int`. -/
theorem U32Range.ofString_of_delim (lw : LongWidth) (s : List Char) (d : Nat)
    (hd : delimOf (find s DELIM) = (d : Int)) (h0 : 0 < d) (h2 : d + 2 < s.length)
    (hfit : d + 2 < 2147483648) :
    U32Range.ofString lw s
      = .ok { low := strtoul lw (s.take d) % U32_MOD,
              high := strtoul lw (s.drop (d + 2)) % U32_MOD } := by
  have hneg : ¬ ((d : Int) < 0) := by omega
  have hcond : (d : Int) > 0 ∧ s.length - d > 2 := ⟨by omega, by omega⟩
  simp only [U32Range.ofString, hd, Int.toNat_ofNat]
  rw [if_neg hneg, if_pos hcond, substr_left, substr_right s d (by omega) hfit]
  rfl

/-- The branch that throws, for a value `d` of `int delim`. -/
theorem U32Range.ofString_of_delim_bad (lw : LongWidth) (s : List Char) (d : Nat)
    (hd : delimOf (find s DELIM) = (d : Int)) (hbad : d = 0 ∨ s.length ≤ d + 2) :
    U32Range.ofString lw s = .error (.InvalidString "Syntax error") := by
  have hneg : ¬ ((d : Int) < 0) := by omega
  have hcond : ¬ ((d : Int) > 0 ∧ s.length - d > 2) := by omega
  simp only [U32Range.ofString, hd, Int.toNat_ofNat]
  rw [if_neg hneg, if_neg hcond]

theorem delimOf_find_some (s : List Char) (p : Nat) (h : find s DELIM = some p)
    (hp : p < 2147483648) : delimOf (find s DELIM) = (p : Int) := by
  rw [h]
  exact toInt_of_lt p hp

/-- A delimiter at a position that `int` represents, with a token on each side. -/
theorem U32Range.ofString_of_find_some (lw : LongWidth) (s : List Char) (p : Nat)
    (h : find s DELIM = some p) (hp : p + 2 < 2147483648) (h0 : 0 < p)
    (h2 : p + 2 < s.length) :
    U32Range.ofString lw s
      = .ok { low := strtoul lw (s.take p) % U32_MOD,
              high := strtoul lw (s.drop (p + 2)) % U32_MOD } :=
  U32Range.ofString_of_delim lw s p (delimOf_find_some s p h (by omega)) h0 h2 hp

/-- A delimiter at position 0, or with nothing after it. -/
theorem U32Range.ofString_of_find_bad (lw : LongWidth) (s : List Char) (p : Nat)
    (h : find s DELIM = some p) (hp : p < 2147483648) (hbad : p = 0 ∨ s.length ≤ p + 2) :
    U32Range.ofString lw s = .error (.InvalidString "Syntax error") :=
  U32Range.ofString_of_delim_bad lw s p (delimOf_find_some s p h hp) hbad

/-! ## Where the delimiter is in a string built around it -/

theorem occursAt_mem (s : List Char) (i : Nat) (h : OccursAt s i) : '.' ∈ s := by
  unfold OccursAt DELIM at h
  have h1 : '.' ∈ List.take 2 (List.drop i s) := by rw [h]; simp
  exact List.mem_of_mem_drop (List.mem_of_mem_take h1)

theorem not_containsDelim_of_no_dot (s : List Char) (h : ∀ c ∈ s, c ≠ '.') :
    ¬ ContainsDelim s := by
  rintro ⟨i, -, hi⟩
  exact h '.' (occursAt_mem s i hi) rfl

theorem firstOccAt_append (pre post : List Char) (hpre : ∀ c ∈ pre, c ≠ '.') :
    FirstOccAt (pre ++ DELIM ++ post) pre.length := by
  constructor
  · simp [OccursAt, DELIM]
  · intro j hj hocc
    unfold OccursAt at hocc
    rw [List.append_assoc, List.drop_append_of_le_length (by omega),
      List.drop_eq_getElem_cons hj] at hocc
    simp only [DELIM, List.cons_append, List.take_succ_cons, List.cons.injEq] at hocc
    exact hpre _ (List.getElem_mem hj) hocc.1

theorem find_append (pre post : List Char) (hpre : ∀ c ∈ pre, c ≠ '.') :
    find (pre ++ DELIM ++ post) DELIM = some pre.length :=
  (find_some _ _).mpr (firstOccAt_append pre post hpre)

theorem decimal_no_dot (n : Nat) : ∀ c ∈ decimal n, c ≠ '.' :=
  fun c hc => isdigit_ne_dot c (decimal_all_digits n c hc)

theorem stopsDigits_nil : StopsDigits [] := by
  intro c hc; simp at hc

theorem stopsDigits_dot (t : List Char) : StopsDigits ('.' :: t) := by
  intro c hc
  simp only [List.head?_cons, Option.some.injEq] at hc
  subst hc
  rfl

/-- The pair form built from two `uint32_t` values parses to these values. -/
theorem U32Range.ofString_pair (lw : LongWidth) (a b : Nat) (t : List Char)
    (ha : a < U32_MOD) (hb : b < U32_MOD) (ht : StopsDigits t) :
    U32Range.ofString lw (decimal a ++ DELIM ++ (decimal b ++ t))
      = .ok { low := a, high := b } := by
  have hfind := find_append (decimal a) (decimal b ++ t) (decimal_no_dot a)
  have hla := decimal_length_u32 a ha
  have hpa := decimal_length_pos a
  have hpb := decimal_length_pos b
  rw [U32Range.ofString_of_find_some lw _ _ hfind (by omega) hpa
    (by simp only [List.length_append, DELIM, List.length_cons, List.length_nil]; omega)]
  have htake : List.take (decimal a).length (decimal a ++ DELIM ++ (decimal b ++ t))
      = decimal a := by
    rw [List.append_assoc, List.take_left']
    rfl
  have hdrop : List.drop ((decimal a).length + 2) (decimal a ++ DELIM ++ (decimal b ++ t))
      = decimal b ++ t := by
    have : (decimal a).length + 2 = (decimal a ++ DELIM).length := by simp [DELIM]
    rw [this, List.drop_left']
    rfl
  rw [htake, hdrop]
  have h1 := strtoul_decimal lw a [] ha stopsDigits_nil
  rw [List.append_nil] at h1
  rw [h1, strtoul_decimal lw b t hb ht, Nat.mod_eq_of_lt ha, Nat.mod_eq_of_lt hb]

/-- The single form built from a `uint32_t` value parses to this value. -/
theorem U32Range.ofString_single (lw : LongWidth) (n : Nat) (t : List Char)
    (hn : n < U32_MOD) (ht : StopsDigits t) (hno : ¬ ContainsDelim (decimal n ++ t)) :
    U32Range.ofString lw (decimal n ++ t) = .ok { low := n, high := n } := by
  rw [U32Range.ofString_of_find_none lw _ ((find_none _).mpr hno),
    strtoul_decimal lw n t hn ht, Nat.mod_eq_of_lt hn]

/-! ## The delimiter grammar of `U32Range(const char *)` -/

/-- A string whose first character is neither white space, nor a sign, nor a digit
has no subject sequence: `strtoul` returns 0. -/
theorem strtoul_no_subject (lw : LongWidth) (c : Char) (cs : List Char)
    (hs : isspace c = false) (hm : c ≠ '-') (hp : c ≠ '+') (hd : isdigit c = false) :
    strtoul lw (c :: cs) = 0 := by
  have hsign : takeSign (c :: cs) = (false, c :: cs) := by
    unfold takeSign
    split
    · next heq => simp at heq; exact absurd heq.1 hm
    · next heq => simp at heq; exact absurd heq.1 hp
    · rfl
  simp [strtoul, List.dropWhile_cons, hs, hsign, accumulate, hd]

/-- On `n` letters `a` followed by `".."`, with a position `n` that `int` holds as a
negative number, the constructor takes the branch without delimiter. -/
theorem ofString_letters_then_delim (n : Nat) (hpos : 0 < n) (hneg : toInt n < 0) :
    BadDelim (List.replicate n 'a' ++ DELIM) ∧
    U32Range.ofString .w64 (List.replicate n 'a' ++ DELIM) = .ok { low := 0, high := 0 } := by
  have hpre : ∀ c ∈ List.replicate n 'a', c ≠ '.' := by
    intro c hc
    rw [List.eq_of_mem_replicate hc]
    decide
  have hfirst := firstOccAt_append (List.replicate n 'a') [] hpre
  rw [List.append_nil, List.length_replicate] at hfirst
  have hf := (find_some _ _).mpr hfirst
  obtain ⟨m, rfl⟩ : ∃ m, n = m + 1 := ⟨n - 1, by omega⟩
  constructor
  · refine (badDelim_iff _).mpr ⟨m + 1, hfirst, Or.inr ?_⟩
    rw [List.length_append, List.length_replicate]
    rfl
  · have h0 : strtoul .w64 (List.replicate (m + 1) 'a' ++ DELIM) = 0 := by
      rw [List.replicate_succ, List.cons_append]
      exact strtoul_no_subject .w64 'a' _ (by decide) (by decide) (by decide) (by decide)
    have hd : delimOf (some (m + 1)) < 0 := hneg
    unfold U32Range.ofString
    simp only [hf, if_pos hd, h0]
    rfl

/-- Where the position of the first `".."` fits `int delim`, the constructor behaves as
C1 says: it throws `InvalidString("Syntax error")` if and only if `s` contains `".."`
and the first occurrence starts at index 0 or is the last two characters of `s`; on
every other string it succeeds, provided that `delim + 2` fits `int` as well. -/
theorem U32Range.ofString_syntax_error_iff (lw : LongWidth) (s : List Char)
    (hfit : ∀ p, FirstOccAt s p → p < 2147483648) :
    (U32Range.ofString lw s = .error (.InvalidString "Syntax error") ↔ BadDelim s) ∧
    (¬ BadDelim s → (∀ p, FirstOccAt s p → p + 2 < 2147483648) →
      ∃ r, U32Range.ofString lw s = .ok r) := by
  cases hf : find s DELIM with
  | none =>
    have hno := (find_none s).mp hf
    have hnb : ¬ BadDelim s := fun ⟨i, hlt, hi, _⟩ => hno ⟨i, hlt, hi.1⟩
    rw [U32Range.ofString_of_find_none lw s hf]
    exact ⟨⟨fun h => Except.noConfusion h, fun h => absurd h hnb⟩, fun _ _ => ⟨_, rfl⟩⟩
  | some p =>
    have hfirst := (find_some s p).mp hf
    have hle := occursAt_add_two_le s p hfirst.1
    have hp := hfit p hfirst
    by_cases hbad : p = 0 ∨ s.length ≤ p + 2
    · have hB : BadDelim s := (badDelim_iff s).mpr ⟨p, hfirst, by omega⟩
      rw [U32Range.ofString_of_find_bad lw s p hf hp hbad]
      exact ⟨⟨fun _ => hB, fun _ => rfl⟩, fun h => absurd hB h⟩
    · have hnb : ¬ BadDelim s := by
        rintro ⟨i, -, hi, hi2⟩
        have := firstOccAt_unique s i p hi hfirst
        omega
      refine ⟨⟨fun h => ?_, fun h => absurd h hnb⟩, fun _ hfit2 => ?_⟩
      · have hd := delimOf_find_some s p hf hp
        have hneg : ¬ ((p : Int) < 0) := by omega
        have hcond : (p : Int) > 0 ∧ s.length - p > 2 := ⟨by omega, by omega⟩
        simp only [U32Range.ofString, hd, Int.toNat_ofNat] at h
        rw [if_neg hneg, if_pos hcond, substr_left] at h
        cases hs : substr s (toSize (wrapInt ((p : Int) + 2))) s.length with
        | error e =>
          rw [hs] at h
          have he : e = .out_of_range := by
            unfold substr at hs
            split at hs
            · cases hs; rfl
            · cases hs
          subst he
          cases h
        | ok v =>
          rw [hs] at h
          cases h
      · rw [U32Range.ofString_of_find_some lw s p hf (hfit2 p hfirst) (by omega) (by omega)]
        exact ⟨_, rfl⟩

/-- An application of the theorem above: the first `".."` of `"5.."` starts at index 1
and is its last two characters, and the constructor throws the syntax error; so does
`"..10"`, while `"5"`, `"5..10"` and `"5..."` are accepted. -/
theorem U32Range.ofString_syntax_error_iff_witness :
    (∀ p, FirstOccAt "5..".toList p → p < 2147483648) ∧ BadDelim "5..".toList ∧
    U32Range.ofString .w64 "5..".toList = .error (.InvalidString "Syntax error") ∧
    U32Range.ofString .w64 "..10".toList = .error (.InvalidString "Syntax error") ∧
    U32Range.ofString .w64 "5".toList = .ok { low := 5, high := 5 } ∧
    U32Range.ofString .w64 "5..10".toList = .ok { low := 5, high := 10 } ∧
    U32Range.ofString .w64 "5...".toList = .ok { low := 5, high := 0 } :=
  have hb : BadDelim "5..".toList := by decide
  have hfit : ∀ p, FirstOccAt "5..".toList p → p < 2147483648 := fun p hp => by
    have h := occursAt_add_two_le _ p hp.1
    have hl : "5..".toList.length = 3 := rfl
    omega
  ⟨hfit, hb, (U32Range.ofString_syntax_error_iff .w64 "5..".toList hfit).1.mpr hb,
    rfl, rfl, rfl, rfl⟩

/-- C1, the code at the failing input: on the string of `2 ^ 31` letters `a` followed
by `".."`, the first `".."` is the last two characters, so that the claim requires the
failure `InvalidString("Syntax error")`; the constructor succeeds, because the position
`2 ^ 31` stored in `int delim` is negative and the string is taken to have no
delimiter. The same shape with 5 letters is rejected. -/
theorem U32Range.ofString_long_string_succeeds :
    BadDelim (List.replicate 2147483648 'a' ++ DELIM) ∧
    U32Range.ofString .w64 (List.replicate 2147483648 'a' ++ DELIM)
      = .ok { low := 0, high := 0 } ∧
    U32Range.ofString .w64 (List.replicate 5 'a' ++ DELIM)
      = .error (.InvalidString "Syntax error") :=
  ⟨(ofString_letters_then_delim 2147483648 (by decide) (by decide)).1,
    (ofString_letters_then_delim 2147483648 (by decide) (by decide)).2, rfl⟩

/-! ## Parsing and rendering of `U32Range` -/

theorem U32Range.str_of_lt (a b : Nat) (h : a < b) :
    U32Range.str { low := a, high := b } = decimal a ++ DELIM ++ decimal b := by
  simp [U32Range.str, h]

theorem U32Range.str_of_not_lt (a b : Nat) (h : ¬ a < b) :
    U32Range.str { low := a, high := b } = decimal a := by
  simp [U32Range.str, h]

/-- C2: for all unsigned 32-bit `a` and `b`, in any order, the string constructor
applied to `decimal a ++ ".." ++ decimal b` succeeds with `low = a` and `high = b`,
and when `a < b` the `str()` of the result is the input string again. -/
theorem U32Range.ofString_decimal_pair (lw : LongWidth) (a b : Nat)
    (ha : a < U32_MOD) (hb : b < U32_MOD) :
    ∃ r, U32Range.ofString lw (decimal a ++ DELIM ++ decimal b) = .ok r ∧
      r.low = a ∧ r.high = b ∧
      (a < b → U32Range.str r = decimal a ++ DELIM ++ decimal b) := by
  refine ⟨{ low := a, high := b }, ?_, rfl, rfl, U32Range.str_of_lt a b⟩
  have h := U32Range.ofString_pair lw a b [] ha hb stopsDigits_nil
  rwa [List.append_nil] at h

/-- C2, witness: `"5..10"` gives `low = 5`, `high = 10` and `str()` gives `"5..10"`. -/
theorem U32Range.ofString_decimal_pair_witness :
    (5 < U32_MOD ∧ 10 < U32_MOD) ∧
    ∃ r, U32Range.ofString .w32 "5..10".toList = .ok r ∧ r.low = 5 ∧ r.high = 10 ∧
      (5 < 10 → U32Range.str r = "5..10".toList) :=
  ⟨⟨by decide, by decide⟩, U32Range.ofString_decimal_pair .w32 5 10 (by decide) (by decide)⟩

/-- C3: for every unsigned 32-bit `n`, the string constructor applied to the decimal
rendering of `n` succeeds with `low = high = n`, and `str()` of the result is that
rendering. -/
theorem U32Range.ofString_decimal_single (lw : LongWidth) (n : Nat) (hn : n < U32_MOD) :
    ∃ r, U32Range.ofString lw (decimal n) = .ok r ∧ r.low = n ∧ r.high = n ∧
      U32Range.str r = decimal n := by
  refine ⟨{ low := n, high := n }, ?_, rfl, rfl, U32Range.str_of_not_lt n n (lt_irrefl n)⟩
  have h := U32Range.ofString_single lw n [] hn stopsDigits_nil
    (by rw [List.append_nil]; exact not_containsDelim_of_no_dot _ (decimal_no_dot n))
  rwa [List.append_nil] at h

/-- C3, witness: `"5"` gives `low = high = 5` and `str()` gives `"5"`. -/
theorem U32Range.ofString_decimal_single_witness :
    5 < U32_MOD ∧
    ∃ r, U32Range.ofString .w32 "5".toList = .ok r ∧ r.low = 5 ∧ r.high = 5 ∧
      U32Range.str r = "5".toList :=
  ⟨by decide, U32Range.ofString_decimal_single .w32 5 (by decide)⟩

/-- C4: string round trip. For every range `r` with unsigned 32-bit bounds, parsing
`r.str()` succeeds, and `str()` of the parsed range equals `r.str()`. -/
theorem U32Range.str_roundtrip (lw : LongWidth) (r : U32Range)
    (hl : r.low < U32_MOD) (hh : r.high < U32_MOD) :
    ∃ r2, U32Range.ofString lw (U32Range.str r) = .ok r2 ∧
      U32Range.str r2 = U32Range.str r := by
  obtain ⟨a, b⟩ := r
  simp only at hl hh
  by_cases h : a < b
  · rw [U32Range.str_of_lt a b h]
    refine ⟨{ low := a, high := b }, ?_, U32Range.str_of_lt a b h⟩
    have h2 := U32Range.ofString_pair lw a b [] hl hh stopsDigits_nil
    rwa [List.append_nil] at h2
  · rw [U32Range.str_of_not_lt a b h]
    refine ⟨{ low := a, high := a }, ?_, U32Range.str_of_not_lt a a (lt_irrefl a)⟩
    have h2 := U32Range.ofString_single lw a [] hl stopsDigits_nil
      (by rw [List.append_nil]; exact not_containsDelim_of_no_dot _ (decimal_no_dot a))
    rwa [List.append_nil] at h2

/-- C4, witness: the dual-value range (5, 10) renders as `"5..10"`, which parses to a
range that renders as `"5..10"` again. -/
theorem U32Range.str_roundtrip_witness :
    ((5 : Nat) < U32_MOD ∧ (10 : Nat) < U32_MOD) ∧
    U32Range.str { low := 5, high := 10 } = "5..10".toList ∧
    ∃ r2, U32Range.ofString .w64 "5..10".toList = .ok r2 ∧
      U32Range.str r2 = "5..10".toList :=
  ⟨⟨by decide, by decide⟩, rfl,
    U32Range.str_roundtrip .w64 { low := 5, high := 10 } (by decide) (by decide)⟩

/-- C5: `str()` is the decimal rendering of `low` alone when not `low < high`, and
`decimal low ++ ".." ++ decimal high` when `low < high`; so the output contains
`".."` if and only if `low < high`, a degenerate range `(v, v)` renders as
`decimal v`, and the bounds (7, 7) render as `"7"`. -/
theorem U32Range.str_spec (r : U32Range) :
    (¬ r.low < r.high → U32Range.str r = decimal r.low) ∧
    (r.low < r.high → U32Range.str r = decimal r.low ++ DELIM ++ decimal r.high) ∧
    (ContainsDelim (U32Range.str r) ↔ r.low < r.high) ∧
    (∀ v : Nat, U32Range.str { low := v, high := v } = decimal v) ∧
    U32Range.str { low := 7, high := 7 } = "7".toList := by
  obtain ⟨a, b⟩ := r
  refine ⟨U32Range.str_of_not_lt a b, U32Range.str_of_lt a b, ?_,
    fun v => U32Range.str_of_not_lt v v (lt_irrefl v), rfl⟩
  by_cases h : a < b
  · rw [U32Range.str_of_lt a b h]
    exact ⟨fun _ => h, fun _ => (containsDelim_iff _).mpr
      ⟨_, (firstOccAt_append (decimal a) (decimal b) (decimal_no_dot a)).1⟩⟩
  · rw [U32Range.str_of_not_lt a b h]
    exact ⟨fun hc => absurd hc (not_containsDelim_of_no_dot _ (decimal_no_dot a)),
      fun hlt => absurd hlt h⟩

/-! ## Comparison of a range with a value -/

section Compare

variable {α : Type} [LinearOrder α]

theorem Range.eq_iff (r : Range α) (x : α) : r.eq x = true ↔ r.low ≤ x ∧ x ≤ r.high := by
  simp [Range.eq]

theorem Range.lt_iff (r : Range α) (x : α) : r.lt x = true ↔ r.high < x := by
  simp [Range.lt]

theorem Range.gt_iff (r : Range α) (x : α) : r.gt x = true ↔ x < r.low := by
  simp [Range.gt]

theorem Range.le_iff (r : Range α) (x : α) : r.le x = true ↔ r.low ≤ x := by
  simp [Range.le]

theorem Range.ge_iff (r : Range α) (x : α) : r.ge x = true ↔ x ≤ r.high := by
  simp [Range.ge]

theorem Range.le_eq_not_gt (r : Range α) (v : α) : r.le v = !r.gt v := by
  by_cases hv : r.low ≤ v
  · simp [Range.le, Range.gt, hv, not_lt.mpr hv]
  · simp [Range.le, Range.gt, hv, not_le.mp hv]

theorem Range.ge_eq_not_lt (r : Range α) (v : α) : r.ge v = !r.lt v := by
  by_cases hv : v ≤ r.high
  · simp [Range.ge, Range.lt, hv, not_lt.mpr hv]
  · simp [Range.ge, Range.lt, hv, not_le.mp hv]

/-- C6: for all `low ≤ high` and every `x` of a linearly ordered element type,
`Range(low, high) == x` is true if and only if `low ≤ x` and `x ≤ high`. -/
theorem Range.eq_mk2_iff (low high x : α) (_h : low ≤ high) :
    (Range.mk2 low high).eq x = true ↔ low ≤ x ∧ x ≤ high :=
  Range.eq_iff (Range.mk2 low high) x

/-- C8 (as amended): `<=` is the exact logical complement of `>`, and `>=` of `<`: for
every range over a linearly ordered element type and every `v`, `range <= v` is the
negation of `range > v` and `range >= v` is the negation of `range < v`. -/
theorem Range.le_ge_complement (r : Range α) (v : α) :
    r.le v = !r.gt v ∧ r.ge v = !r.lt v :=
  ⟨Range.le_eq_not_gt r v, Range.ge_eq_not_lt r v⟩

end Compare

/-- C6, witness: `Range(5, 10) == 7` is true, and 7 lies between 5 and 10. -/
theorem Range.eq_mk2_iff_witness :
    (5 : Nat) ≤ 10 ∧ (Range.mk2 (5 : Nat) 10).eq 7 = true ∧ ((5 : Nat) ≤ 7 ∧ (7 : Nat) ≤ 10) :=
  ⟨by decide, (Range.eq_mk2_iff (5 : Nat) 10 7 (by decide)).mpr ⟨by decide, by decide⟩,
    by decide, by decide⟩

/-- C8, counterexample: over `uint32_t` there is no range and value for which
`range <= v` and `range > v` have the same truth value, and none for which
`range >= v` and `range < v` have the same truth value. -/
theorem Range.no_le_gt_agree :
    (¬ ∃ r : Range Nat, ∃ v : Nat,
        r.low < U32_MOD ∧ r.high < U32_MOD ∧ v < U32_MOD ∧ r.le v = r.gt v) ∧
    (¬ ∃ r : Range Nat, ∃ v : Nat,
        r.low < U32_MOD ∧ r.high < U32_MOD ∧ v < U32_MOD ∧ r.ge v = r.lt v) := by
  constructor
  · rintro ⟨r, v, -, -, -, h⟩
    rw [Range.le_eq_not_gt] at h
    cases hg : r.gt v <;> simp [hg] at h
  · rintro ⟨r, v, -, -, -, h⟩
    rw [Range.ge_eq_not_lt] at h
    cases hg : r.lt v <;> simp [hg] at h

/-! ## The permissive numeric parse -/

/-- With no digit after the white space and the optional sign, `strtoul` returns 0. -/
theorem strtoul_no_digits (lw : LongWidth) (s : List Char)
    (h : StopsDigits (takeSign (s.dropWhile isspace)).2) : strtoul lw s = 0 := by
  simp only [strtoul, accumulate_stop 0 _ h]
  rw [if_neg (by omega)]
  split
  · simp
  · rfl

/-- C9: trailing garbage is ignored. For every unsigned 32-bit `n` and every string `t`
that does not begin with a decimal digit and such that `decimal n ++ t` contains no
`".."`, the string constructor applied to `decimal n ++ t` succeeds with
`low = high = n`. -/
theorem U32Range.ofString_trailing_garbage (lw : LongWidth) (n : Nat) (t : List Char)
    (hn : n < U32_MOD) (ht : StopsDigits t) (hno : ¬ ContainsDelim (decimal n ++ t)) :
    U32Range.ofString lw (decimal n ++ t) = .ok { low := n, high := n } :=
  U32Range.ofString_single lw n t hn ht hno

/-- C9, witness: `"5abc"` gives `low = high = 5`. -/
theorem U32Range.ofString_trailing_garbage_witness :
    (5 < U32_MOD ∧ StopsDigits "abc".toList ∧ ¬ ContainsDelim "5abc".toList) ∧
    U32Range.ofString .w32 "5abc".toList = .ok { low := 5, high := 5 } :=
  have hno : ¬ ContainsDelim "5abc".toList := (find_none _).mp (by decide)
  ⟨⟨by decide, by decide, hno⟩,
    U32Range.ofString_trailing_garbage .w32 5 "abc".toList (by decide) (by decide) hno⟩

/-- C10, counterexample: `"+5"` contains no `".."` and does not begin with a decimal
digit, yet the constructor gives `low = high = 5`, because `strtoul` accepts a sign
before the digits. -/
theorem U32Range.ofString_plus_five :
    ¬ ContainsDelim "+5".toList ∧ StopsDigits "+5".toList ∧
    U32Range.ofString .w64 "+5".toList = .ok { low := 5, high := 5 } :=
  ⟨(find_none _).mp (by decide), by decide, rfl⟩

/-- C10 (as amended): a token with no numeric prefix parses to zero. For every string
`s` that contains no `".."` and in which no decimal digit follows the leading white
space and the optional sign (this includes the empty string), the string constructor
succeeds with `low = high = 0`. -/
theorem U32Range.ofString_no_digits (lw : LongWidth) (s : List Char)
    (hno : ¬ ContainsDelim s)
    (hd : StopsDigits (takeSign (s.dropWhile isspace)).2) :
    U32Range.ofString lw s = .ok { low := 0, high := 0 } := by
  rw [U32Range.ofString_of_find_none lw s ((find_none s).mpr hno), strtoul_no_digits lw s hd]
  rfl

/-- C10, witness: `" -x"` (white space, a sign, no digit) gives `low = high = 0`. -/
theorem U32Range.ofString_no_digits_witness :
    (¬ ContainsDelim " -x".toList ∧
      StopsDigits (takeSign (" -x".toList.dropWhile isspace)).2) ∧
    U32Range.ofString .w32 " -x".toList = .ok { low := 0, high := 0 } :=
  have hno : ¬ ContainsDelim " -x".toList := (find_none _).mp (by decide)
  ⟨⟨hno, by decide⟩, U32Range.ofString_no_digits .w32 " -x".toList hno (by decide)⟩

/-! ## More on the comparison operators -/

/-- C14: for every value `v` of the element type, the single-value constructor gives a
degenerate range: `Range(v).low() == v` and `Range(v).high() == v`. -/
theorem Range.single_low_high {α : Type} (v : α) :
    (Range.single v).low = v ∧ (Range.single v).high = v :=
  ⟨rfl, rfl⟩

section CompareMore

variable {α : Type} [LinearOrder α]

/-- C15: when `low > high`, `range == v` is false and `range != v` is true for every
`v`, and for every `v` with `high < v < low` both `range < v` and `range > v` are
true. Stated for every linearly ordered element type, `uint32_t` among them. -/
theorem Range.inverted_bounds (r : Range α) (h : r.low > r.high) (v : α) :
    r.eq v = false ∧ r.ne v = true ∧
    (r.high < v → v < r.low → r.lt v = true ∧ r.gt v = true) := by
  refine ⟨?_, ?_, fun h1 h2 => ⟨(Range.lt_iff r v).mpr h1, (Range.gt_iff r v).mpr h2⟩⟩
  · rw [← Bool.not_eq_true, Range.eq_iff]
    rintro ⟨h1, h2⟩
    exact absurd (lt_of_le_of_lt (le_trans h1 h2) h) (lt_irrefl _)
  · simp only [Range.ne, Bool.or_eq_true, decide_eq_true_eq]
    by_cases hv : v < r.low
    · exact Or.inl hv
    · exact Or.inr (lt_of_lt_of_le h (not_lt.mp hv))

/-- C17: for every range over a linearly ordered element type, whether or not
`low ≤ high`, and every `v`, `range != v` is exactly the negation of `range == v`. -/
theorem Range.ne_eq_not_eq (r : Range α) (v : α) : r.ne v = !r.eq v := by
  by_cases h1 : r.low ≤ v <;> by_cases h2 : v ≤ r.high <;>
    simp [Range.ne, Range.eq, h1, h2, not_lt.mpr, not_le.mp]

/-- C18: trichotomy under the invariant. For every range with `low ≤ high` and every
`v`, exactly one of `range < v`, `range == v`, `range > v` is true. -/
theorem Range.trichotomy (r : Range α) (h : r.low ≤ r.high) (v : α) :
    (r.lt v = true ∧ r.eq v = false ∧ r.gt v = false) ∨
    (r.lt v = false ∧ r.eq v = true ∧ r.gt v = false) ∨
    (r.lt v = false ∧ r.eq v = false ∧ r.gt v = true) := by
  simp only [← Bool.not_eq_true, Range.lt_iff, Range.eq_iff, Range.gt_iff]
  rcases lt_or_le v r.low with h1 | h1
  · right; right
    exact ⟨not_lt.mpr (le_trans h1.le h), fun h2 => absurd h2.1 (not_le.mpr h1), h1⟩
  · rcases le_or_lt v r.high with h2 | h2
    · right; left
      exact ⟨not_lt.mpr h2, ⟨h1, h2⟩, not_lt.mpr h1⟩
    · left
      exact ⟨h2, fun h3 => absurd h3.2 (not_le.mpr h2), not_lt.mpr h1⟩

/-- C19: under the invariant `low ≤ high`, `range <= v` is true if and only if
`range < v` or `range == v`, and `range >= v` is true if and only if `range > v` or
`range == v`. -/
theorem Range.le_ge_combined (r : Range α) (h : r.low ≤ r.high) (v : α) :
    (r.le v = true ↔ (r.lt v = true ∨ r.eq v = true)) ∧
    (r.ge v = true ↔ (r.gt v = true ∨ r.eq v = true)) := by
  simp only [Range.le_iff, Range.ge_iff, Range.lt_iff, Range.gt_iff, Range.eq_iff]
  constructor
  · constructor
    · intro h1
      rcases le_or_lt v r.high with h2 | h2
      · exact Or.inr ⟨h1, h2⟩
      · exact Or.inl h2
    · rintro (h1 | h1)
      · exact le_trans h h1.le
      · exact h1.1
  · constructor
    · intro h1
      rcases lt_or_le v r.low with h2 | h2
      · exact Or.inl h2
      · exact Or.inr ⟨h2, h1⟩
    · rintro (h1 | h1)
      · exact le_trans h1.le h
      · exact h1.2

end CompareMore

/-- C15, witness: for the range with `low = 10 > high = 5` and `v = 7`, `==` is false
and `!=`, `<` and `>` are all true. -/
theorem Range.inverted_bounds_witness :
    (10 : Nat) > 5 ∧ (Range.mk2 (10 : Nat) 5).eq 7 = false ∧
    (Range.mk2 (10 : Nat) 5).ne 7 = true ∧
    (Range.mk2 (10 : Nat) 5).lt 7 = true ∧ (Range.mk2 (10 : Nat) 5).gt 7 = true :=
  have h := Range.inverted_bounds (Range.mk2 (10 : Nat) 5) (by decide) 7
  ⟨by decide, h.1, h.2.1, h.2.2 (by decide) (by decide)⟩

/-- C18, witness: for `Range(5, 10)` and `v = 12`, only `range < v` is true. -/
theorem Range.trichotomy_witness :
    (5 : Nat) ≤ 10 ∧
    ((Range.mk2 (5 : Nat) 10).lt 12 = true ∧ (Range.mk2 (5 : Nat) 10).eq 12 = false ∧
      (Range.mk2 (5 : Nat) 10).gt 12 = false) :=
  ⟨by decide, (Range.trichotomy (Range.mk2 (5 : Nat) 10) (by decide) 12).resolve_right
    (by decide)⟩

/-- C19, witness: for `Range(5, 10)` and `v = 12`, `range <= v` holds and so does
`range < v`. -/
theorem Range.le_ge_combined_witness :
    (5 : Nat) ≤ 10 ∧ (Range.mk2 (5 : Nat) 10).le 12 = true ∧
    ((Range.mk2 (5 : Nat) 10).lt 12 = true ∨ (Range.mk2 (5 : Nat) 10).eq 12 = true) :=
  ⟨by decide, by decide,
    (Range.le_ge_combined (Range.mk2 (5 : Nat) 10) (by decide) 12).1.mp (by decide)⟩

/-! ## Value round trip and later delimiters -/

/-- C16: for all unsigned 32-bit `low` and `high`, parsing the `str()` of the range
with bounds `(low, high)` succeeds, and it yields the same `low` and the same `high`
if and only if `low ≤ high`; when `low > high` it yields `low = high =` the original
`low`. -/
theorem U32Range.value_roundtrip_iff (lw : LongWidth) (low high : Nat)
    (hl : low < U32_MOD) (hh : high < U32_MOD) :
    (∃ r, U32Range.ofString lw (U32Range.str { low := low, high := high }) = .ok r ∧
      ((r.low = low ∧ r.high = high) ↔ low ≤ high)) ∧
    (low > high →
      U32Range.ofString lw (U32Range.str { low := low, high := high })
        = .ok { low := low, high := low }) := by
  have hsingle : U32Range.ofString lw (decimal low) = .ok { low := low, high := low } := by
    have h := U32Range.ofString_single lw low [] hl stopsDigits_nil
      (by rw [List.append_nil]; exact not_containsDelim_of_no_dot _ (decimal_no_dot low))
    rwa [List.append_nil] at h
  by_cases h : low < high
  · rw [U32Range.str_of_lt low high h]
    have h2 := U32Range.ofString_pair lw low high [] hl hh stopsDigits_nil
    rw [List.append_nil] at h2
    exact ⟨⟨_, h2, ⟨fun _ => h.le, fun _ => ⟨rfl, rfl⟩⟩⟩, fun hgt => absurd h (by omega)⟩
  · rw [U32Range.str_of_not_lt low high h]
    refine ⟨⟨_, hsingle, ?_⟩, fun _ => hsingle⟩
    constructor
    · rintro ⟨-, h2⟩
      simp only at h2
      omega
    · intro h2
      exact ⟨rfl, by simp only; omega⟩

/-- C16, witness: the bounds (10, 5) render as `"10"`, which parses to (10, 10). -/
theorem U32Range.value_roundtrip_iff_witness :
    ((10 : Nat) < U32_MOD ∧ (5 : Nat) < U32_MOD ∧ (10 : Nat) > 5) ∧
    U32Range.str { low := 10, high := 5 } = "10".toList ∧
    U32Range.ofString .w32 "10".toList = .ok { low := 10, high := 10 } :=
  ⟨⟨by decide, by decide, by decide⟩, rfl,
    (U32Range.value_roundtrip_iff .w32 10 5 (by decide) (by decide)).2 (by decide)⟩

/-- C20: the split is made at the first occurrence of `".."` only. For all unsigned
32-bit `a`, `b` and every string `t`, the string constructor applied to
`decimal a ++ ".." ++ decimal b ++ ".." ++ t` succeeds with `low = a` and
`high = b`. -/
theorem U32Range.ofString_first_delim_only (lw : LongWidth) (a b : Nat) (t : List Char)
    (ha : a < U32_MOD) (hb : b < U32_MOD) :
    U32Range.ofString lw (decimal a ++ DELIM ++ decimal b ++ DELIM ++ t)
      = .ok { low := a, high := b } := by
  have h := U32Range.ofString_pair lw a b (DELIM ++ t) ha hb (stopsDigits_dot _)
  rw [show decimal a ++ DELIM ++ decimal b ++ DELIM ++ t
      = decimal a ++ DELIM ++ (decimal b ++ (DELIM ++ t)) by simp only [List.append_assoc]]
  exact h

/-- C20, witness: `"1..2..3"` gives `low = 1`, `high = 2`. -/
theorem U32Range.ofString_first_delim_only_witness :
    ((1 : Nat) < U32_MOD ∧ (2 : Nat) < U32_MOD) ∧
    U32Range.ofString .w64 "1..2..3".toList = .ok { low := 1, high := 2 } :=
  ⟨⟨by decide, by decide⟩,
    U32Range.ofString_first_delim_only .w64 1 2 "3".toList (by decide) (by decide)⟩

/-! ## The grammar -/

theorem grammar_of_not_contains (s : List Char) (h : ¬ ContainsDelim s) :
    grammar s = .ok (.single s) := by
  unfold grammar
  rw [(find_none s).mpr h]

theorem grammar_of_firstOcc (s : List Char) (p : Nat) (hp : FirstOccAt s p)
    (hgood : ¬ BadDelim s) : grammar s = .ok (.pair (s.take p) (s.drop (p + 2))) := by
  have hle := occursAt_add_two_le s p hp.1
  have h : 0 < p ∧ p + 2 < s.length := by
    by_contra hc
    exact hgood ((badDelim_iff s).mpr ⟨p, hp, by omega⟩)
  unfold grammar
  rw [(find_some s p).mpr hp]
  simp only [if_pos h]

theorem grammar_error_iff (s : List Char) (e : Exception) :
    grammar s = .error e ↔ e = .InvalidString "Syntax error" ∧ BadDelim s := by
  unfold grammar
  cases hf : find s DELIM with
  | none =>
    have hno := (find_none s).mp hf
    constructor
    · intro he
      cases he
    · rintro ⟨-, i, hlt, hi, -⟩
      exact absurd ⟨i, hlt, hi.1⟩ hno
  | some p =>
    have hp := (find_some s p).mp hf
    have hle := occursAt_add_two_le s p hp.1
    by_cases h : 0 < p ∧ p + 2 < s.length
    · simp only [if_pos h]
      constructor
      · intro he
        cases he
      · rintro ⟨-, i, -, hi, hi2⟩
        have := firstOccAt_unique s i p hi hp
        omega
    · simp only [if_neg h, Except.error.injEq]
      constructor
      · intro he
        exact ⟨he.symm, (badDelim_iff s).mpr ⟨p, hp, by omega⟩⟩
      · intro he
        exact he.1.symm

/-! ## The branches of `IPvXRange(const char *)` -/

theorem map_eq_syntax_error_iff (lw : LongWidth) (g : Except Exception Tokens) :
    g.map (U32Range.ofTokens lw) = .error (.InvalidString "Syntax error")
      ↔ g = .error (.InvalidString "Syntax error") := by
  cases g with
  | error e => simp [Except.map]
  | ok tk => simp [Except.map]

theorem IPvXRange.ofTokens_single_error {ε T : Type} (ops : ElemOps ε T) (tok : List Char)
    (e : ε) (h : ops.ofString tok = .error e) :
    IPvXRange.ofTokens ops (.single tok) = .error (.element e) := by
  simp only [IPvXRange.ofTokens]
  rw [h]
  rfl

theorem IPvXRange.ofTokens_single_ok {ε T : Type} (ops : ElemOps ε T) (tok : List Char)
    (v : T) (h : ops.ofString tok = .ok v) :
    IPvXRange.ofTokens ops (.single tok) = .ok { low := v, high := v } := by
  simp only [IPvXRange.ofTokens]
  rw [h]
  rfl

theorem IPvXRange.ofTokens_pair_left_error {ε T : Type} (ops : ElemOps ε T)
    (l r : List Char) (e : ε) (h : ops.ofString l = .error e) :
    IPvXRange.ofTokens ops (.pair l r) = .error (.element e) := by
  simp only [IPvXRange.ofTokens]
  rw [h]
  rfl

theorem IPvXRange.ofTokens_pair_right_error {ε T : Type} (ops : ElemOps ε T)
    (l r : List Char) (v : T) (e : ε) (hl : ops.ofString l = .ok v)
    (hr : ops.ofString r = .error e) :
    IPvXRange.ofTokens ops (.pair l r) = .error (.element e) := by
  simp only [IPvXRange.ofTokens]
  rw [hl, hr]
  rfl

theorem IPvXRange.ofTokens_pair_ok {ε T : Type} (ops : ElemOps ε T)
    (l r : List Char) (v w : T) (hl : ops.ofString l = .ok v) (hr : ops.ofString r = .ok w) :
    IPvXRange.ofTokens ops (.pair l r) = .ok { low := v, high := w } := by
  simp only [IPvXRange.ofTokens]
  rw [hl, hr]
  rfl

theorem IPvXRange.ofTokens_ne_own {ε T : Type} (ops : ElemOps ε T) (tk : Tokens)
    (e : Exception) : IPvXRange.ofTokens ops tk ≠ .error (.own e) := by
  cases tk with
  | single tok =>
    cases h : ops.ofString tok with
    | error e1 => rw [IPvXRange.ofTokens_single_error ops tok e1 h]; intro hc; cases hc
    | ok v => rw [IPvXRange.ofTokens_single_ok ops tok v h]; intro hc; cases hc
  | pair l r =>
    cases hl : ops.ofString l with
    | error e1 => rw [IPvXRange.ofTokens_pair_left_error ops l r e1 hl]; intro hc; cases hc
    | ok v =>
      cases hr : ops.ofString r with
      | error e1 =>
        rw [IPvXRange.ofTokens_pair_right_error ops l r v e1 hl hr]; intro hc; cases hc
      | ok w => rw [IPvXRange.ofTokens_pair_ok ops l r v w hl hr]; intro hc; cases hc

theorem IPvXRange.ofSplit_eq_own_iff {ε T : Type} (ops : ElemOps ε T)
    (g : Except Exception Tokens) (e : Exception) :
    IPvXRange.ofSplit ops g = .error (.own e) ↔ g = .error e := by
  cases g with
  | error e1 =>
    simp only [IPvXRange.ofSplit, Except.error.injEq, IPvXFailure.own.injEq]
  | ok tk =>
    simp only [IPvXRange.ofSplit]
    constructor
    · intro h
      exact absurd h (IPvXRange.ofTokens_ne_own ops tk e)
    · intro h
      cases h

/-- A failure of the conversion of 0 in the base constructor is the failure of the
constructor, whatever the string. -/
theorem IPvXRange.ctor_of_zero_error {ε T : Type} (ops : ElemOps ε T) (e : ε)
    (hz : ops.ofZero = .error e) (s : List Char) :
    IPvXRange.ofString ops s = .error (.element e) := by
  simp only [IPvXRange.ofString, hz]

theorem IPvXRange.ctor_of_find_none {ε T : Type} (ops : ElemOps ε T) (z : T)
    (hz : ops.ofZero = .ok z) (s : List Char) (h : find s DELIM = none) :
    IPvXRange.ofString ops s = IPvXRange.ofTokens ops (.single s) := by
  have hneg : delimOf (none : Option Nat) < 0 := by decide
  simp only [IPvXRange.ofString, hz, h, if_pos hneg, IPvXRange.ofTokens]

/-- The branch with two tokens, for a value `d` of `int delim` with `d + 2` in the
range of `int`. -/
theorem IPvXRange.ctor_of_delim {ε T : Type} (ops : ElemOps ε T) (z : T)
    (hz : ops.ofZero = .ok z) (s : List Char) (d : Nat)
    (hd : delimOf (find s DELIM) = (d : Int)) (h0 : 0 < d) (h2 : d + 2 < s.length)
    (hfit : d + 2 < 2147483648) :
    IPvXRange.ofString ops s
      = IPvXRange.ofTokens ops (.pair (s.take d) (s.drop (d + 2))) := by
  have hneg : ¬ ((d : Int) < 0) := by omega
  have hcond : (d : Int) > 0 ∧ s.length - d > 2 := ⟨by omega, by omega⟩
  simp only [IPvXRange.ofString, hz, hd, Int.toNat_ofNat, IPvXRange.ofTokens]
  rw [if_neg hneg, if_pos hcond, substr_left, substr_right s d (by omega) hfit]
  cases h1 : ops.ofString (List.take d s) <;> cases h3 : ops.ofString (List.drop (d + 2) s) <;>
    simp [Except.mapError, bind, Except.bind, h1, h3]

/-- The branch that throws, for a value `d` of `int delim`. -/
theorem IPvXRange.ctor_of_delim_bad {ε T : Type} (ops : ElemOps ε T) (z : T)
    (hz : ops.ofZero = .ok z) (s : List Char) (d : Nat)
    (hd : delimOf (find s DELIM) = (d : Int)) (hbad : d = 0 ∨ s.length ≤ d + 2) :
    IPvXRange.ofString ops s = .error (.own (.InvalidString "Syntax error")) := by
  have hneg : ¬ ((d : Int) < 0) := by omega
  have hcond : ¬ ((d : Int) > 0 ∧ s.length - d > 2) := by omega
  simp only [IPvXRange.ofString, hz, hd, Int.toNat_ofNat]
  rw [if_neg hneg, if_neg hcond]

/-- Where `delim + 2` fits `int`, the string constructor of `U32Range` is the grammar
followed by the conversion of the tokens with `strtoul`. -/
theorem U32Range.ofString_eq_grammar (lw : LongWidth) (s : List Char)
    (hfit : ∀ p, FirstOccAt s p → p + 2 < 2147483648) :
    U32Range.ofString lw s = (grammar s).map (U32Range.ofTokens lw) := by
  unfold grammar
  cases hf : find s DELIM with
  | none =>
    rw [U32Range.ofString_of_find_none lw s hf]
    rfl
  | some p =>
    have hp := (find_some s p).mp hf
    have hle := occursAt_add_two_le s p hp.1
    have hfit2 := hfit p hp
    by_cases h : 0 < p ∧ p + 2 < s.length
    · simp only [if_pos h]
      rw [U32Range.ofString_of_find_some lw s p hf hfit2 h.1 h.2]
      rfl
    · simp only [if_neg h]
      rw [U32Range.ofString_of_find_bad lw s p hf (by omega) (by omega)]
      rfl

/-- Where `delim + 2` fits `int` and 0 converts to `T`, the string constructor of
`IPvXRange<T>` is the grammar followed by the conversion of the tokens with the string
constructor of `T`. -/
theorem IPvXRange.ctor_eq_grammar {ε T : Type} (ops : ElemOps ε T) (z : T)
    (hz : ops.ofZero = .ok z) (s : List Char)
    (hfit : ∀ p, FirstOccAt s p → p + 2 < 2147483648) :
    IPvXRange.ofString ops s = IPvXRange.ofSplit ops (grammar s) := by
  unfold grammar
  cases hf : find s DELIM with
  | none =>
    rw [IPvXRange.ctor_of_find_none ops z hz s hf]
    rfl
  | some p =>
    have hp := (find_some s p).mp hf
    have hle := occursAt_add_two_le s p hp.1
    have hfit2 := hfit p hp
    have hd := delimOf_find_some s p hf (by omega)
    by_cases h : 0 < p ∧ p + 2 < s.length
    · simp only [if_pos h]
      rw [IPvXRange.ctor_of_delim ops z hz s p hd h.1 h.2 hfit2]
      rfl
    · simp only [if_neg h]
      rw [IPvXRange.ctor_of_delim_bad ops z hz s p hd (by omega)]
      rfl

/-! ## One delimiter grammar for `U32Range` and `IPvXRange<T>` -/

/-- Where `delim + 2` fits `int` and 0 converts to `T`, the two string constructors
follow one grammar: each is the grammar followed by its conversion of the tokens, and
`IPvXRange<T>` throws `InvalidString("Syntax error")` on exactly the strings on which
`U32Range` throws it, whatever the string constructor of `T` does with a token. -/
theorem IPvXRange.same_split_as_U32Range {ε T : Type} (lw : LongWidth)
    (ops : ElemOps ε T) (z : T) (hz : ops.ofZero = .ok z) (s : List Char)
    (hfit : ∀ p, FirstOccAt s p → p + 2 < 2147483648) :
    U32Range.ofString lw s = (grammar s).map (U32Range.ofTokens lw) ∧
    IPvXRange.ofString ops s = IPvXRange.ofSplit ops (grammar s) ∧
    (IPvXRange.ofString ops s = .error (.own (.InvalidString "Syntax error"))
      ↔ U32Range.ofString lw s = .error (.InvalidString "Syntax error")) := by
  refine ⟨U32Range.ofString_eq_grammar lw s hfit,
    IPvXRange.ctor_eq_grammar ops z hz s hfit, ?_⟩
  rw [IPvXRange.ctor_eq_grammar ops z hz s hfit, U32Range.ofString_eq_grammar lw s hfit,
    IPvXRange.ofSplit_eq_own_iff, map_eq_syntax_error_iff]

/-! ## Failures of the element type -/

/-- Where `delim + 2` fits `int` and 0 converts to `T`, the constructor of
`IPvXRange<T>` throws `InvalidString("Syntax error")` exactly when the delimiter
placement is malformed; and when the placement is valid, a failure of the string
constructor of `T` on a token (the whole string when there is no `".."`; otherwise the
left token first, then the right token) is the failure of the constructor. -/
theorem IPvXRange.element_failure_propagates {ε T : Type} (ops : ElemOps ε T) (z : T)
    (hz : ops.ofZero = .ok z) (s : List Char)
    (hfit : ∀ p, FirstOccAt s p → p + 2 < 2147483648) :
    (IPvXRange.ofString ops s = .error (.own (.InvalidString "Syntax error"))
      ↔ BadDelim s) ∧
    (¬ BadDelim s →
      (∀ e, ¬ ContainsDelim s → ops.ofString s = .error e →
        IPvXRange.ofString ops s = .error (.element e)) ∧
      (∀ p e, FirstOccAt s p → ops.ofString (s.take p) = .error e →
        IPvXRange.ofString ops s = .error (.element e)) ∧
      (∀ p l e, FirstOccAt s p → ops.ofString (s.take p) = .ok l →
        ops.ofString (s.drop (p + 2)) = .error e →
        IPvXRange.ofString ops s = .error (.element e))) := by
  rw [IPvXRange.ctor_eq_grammar ops z hz s hfit]
  constructor
  · rw [IPvXRange.ofSplit_eq_own_iff, grammar_error_iff]
    exact ⟨fun h => h.2, fun h => ⟨rfl, h⟩⟩
  · intro hgood
    refine ⟨?_, ?_, ?_⟩
    · intro e hno he
      rw [grammar_of_not_contains s hno]
      exact IPvXRange.ofTokens_single_error ops s e he
    · intro p e hp he
      rw [grammar_of_firstOcc s p hp hgood]
      exact IPvXRange.ofTokens_pair_left_error ops _ _ e he
    · intro p l e hp hl he
      rw [grammar_of_firstOcc s p hp hgood]
      exact IPvXRange.ofTokens_pair_right_error ops _ _ l e hl he

/-! ## Strings whose delimiter position does not fit in `int` -/

theorem find_letters (n : Nat) (post : List Char) :
    find (List.replicate n 'a' ++ DELIM ++ post) DELIM = some n := by
  have hpre : ∀ c ∈ List.replicate n 'a', c ≠ '.' := by
    intro c hc
    rw [List.eq_of_mem_replicate hc]
    decide
  have h := find_append (List.replicate n 'a') post hpre
  rwa [List.length_replicate] at h

theorem length_letters (n : Nat) (post : List Char) :
    (List.replicate n 'a' ++ DELIM ++ post).length = n + 2 + post.length := by
  rw [List.length_append, List.length_append, List.length_replicate]
  rfl

theorem delimOf_letters (n : Nat) (post : List Char) :
    delimOf (find (List.replicate n 'a' ++ DELIM ++ post) DELIM) = toInt n := by
  rw [find_letters]
  rfl

theorem take_letters (k m : Nat) (post : List Char) :
    List.take k (List.replicate (k + 2 + m) 'a' ++ DELIM ++ post) = List.replicate k 'a' := by
  rw [List.append_assoc, List.take_append_of_le_length
    (by rw [List.length_replicate]; omega), List.take_replicate]
  congr 1
  omega

theorem drop_letters (k m : Nat) (post : List Char) :
    List.drop (k + 2) (List.replicate (k + 2 + m) 'a' ++ DELIM ++ post)
      = List.replicate m 'a' ++ DELIM ++ post := by
  rw [List.append_assoc, List.drop_append_of_le_length
    (by rw [List.length_replicate]; omega), List.drop_replicate, List.append_assoc]
  congr 2
  omega

theorem firstOccAt_letters (n : Nat) (post : List Char) :
    FirstOccAt (List.replicate n 'a' ++ DELIM ++ post) n :=
  (find_some _ _).mp (find_letters n post)

theorem not_badDelim_letters (n : Nat) (post : List Char) (hn : 0 < n)
    (hpost : 0 < post.length) : ¬ BadDelim (List.replicate n 'a' ++ DELIM ++ post) := by
  rintro ⟨i, -, hi, hi2⟩
  have := firstOccAt_unique _ i n hi (firstOccAt_letters n post)
  have hlen := length_letters n post
  omega

theorem strtoul_letters (lw : LongWidth) (n : Nat) (t : List Char) (hn : 0 < n) :
    strtoul lw (List.replicate n 'a' ++ t) = 0 := by
  obtain ⟨m, rfl⟩ : ∃ m, n = m + 1 := ⟨n - 1, by omega⟩
  rw [List.replicate_succ, List.cons_append]
  exact strtoul_no_subject lw 'a' _ (by decide) (by decide) (by decide) (by decide)

/-- A position that `int` holds as `k > 0`: both constructors cut the string at `k`. -/
theorem ofString_letters_wrapped (k m : Nat) (post : List Char)
    (hk : toInt (k + 2 + m) = (k : Int)) (hk0 : 0 < k) (hm : 0 < m)
    (hfit : k + 2 < 2147483648) :
    IPvXRange.ofString ElemOps.echo (List.replicate (k + 2 + m) 'a' ++ DELIM ++ post)
      = .ok { low := List.replicate k 'a', high := List.replicate m 'a' ++ DELIM ++ post } ∧
    U32Range.ofString .w64 (List.replicate (k + 2 + m) 'a' ++ DELIM ++ post)
      = .ok { low := 0, high := 0 } := by
  have hd : delimOf (find (List.replicate (k + 2 + m) 'a' ++ DELIM ++ post) DELIM)
      = (k : Int) := by rw [delimOf_letters, hk]
  have hlen := length_letters (k + 2 + m) post
  constructor
  · rw [IPvXRange.ctor_of_delim ElemOps.echo [] rfl _ k hd hk0 (by omega) hfit,
      take_letters, drop_letters]
    rfl
  · rw [U32Range.ofString_of_delim .w64 _ k hd hk0 (by omega) hfit,
      take_letters, drop_letters]
    have h1 := strtoul_letters .w64 k [] hk0
    have h2 := strtoul_letters .w64 m (DELIM ++ post) hm
    rw [List.append_nil] at h1
    rw [← List.append_assoc] at h2
    rw [h1, h2]
    rfl

/-- A position that `int` holds as 0: the string is rejected before any token is
converted. -/
theorem ofString_letters_zero (n : Nat) (post : List Char) (hz : toInt n = 0) :
    IPvXRange.ofString ElemOps.reject (List.replicate n 'a' ++ DELIM ++ post)
      = .error (.own (.InvalidString "Syntax error")) :=
  IPvXRange.ctor_of_delim_bad ElemOps.reject () rfl _ 0
    (by rw [delimOf_letters, hz]; rfl) (Or.inl rfl)

/-- A position `n` such that `n + 2` does not fit `int`: the start of the right token
is beyond the string and `substr` throws. -/
theorem ofString_letters_overflow (n : Nat) (post : List Char) (hn : toInt n = (n : Int))
    (hn0 : 0 < n) (hpost : 0 < post.length)
    (hbig : toSize (wrapInt ((n : Int) + 2)) > n + 2 + post.length) :
    U32Range.ofString .w64 (List.replicate n 'a' ++ DELIM ++ post) = .error .out_of_range := by
  have hd : delimOf (find (List.replicate n 'a' ++ DELIM ++ post) DELIM) = (n : Int) := by
    rw [delimOf_letters, hn]
  have hlen := length_letters n post
  have hneg : ¬ ((n : Int) < 0) := by omega
  have hcond : (n : Int) > 0 ∧ (List.replicate n 'a' ++ DELIM ++ post).length - n > 2 :=
    ⟨by omega, by omega⟩
  have hsub : substr (List.replicate n 'a' ++ DELIM ++ post)
      (toSize (wrapInt ((n : Int) + 2))) (List.replicate n 'a' ++ DELIM ++ post).length
      = .error .out_of_range := by
    unfold substr
    rw [if_pos (by omega)]
  simp only [U32Range.ofString, hd, Int.toNat_ofNat]
  rw [if_neg hneg, if_pos hcond, substr_left, hsub]
  rfl

/-- On `2 ^ 31 - 2` letters `a` followed by `"..7"` the position fits `int` but
`delim + 2` does not: the constructor throws `std::out_of_range`. -/
theorem U32Range.ofString_start_overflows :
    U32Range.ofString .w64 (List.replicate 2147483646 'a' ++ DELIM ++ ['7'])
      = .error .out_of_range :=
  ofString_letters_overflow 2147483646 ['7'] (by decide) (by decide) (by decide) (by decide)

theorem reject_ofString (tok : List Char) : ElemOps.reject.ofString tok = .error tok := rfl

/-- C12, the code at the failing input: on `2 ^ 32 + 1` letters `a` followed by `"..7"`
the first `".."` starts at index `2 ^ 32 + 1`, so that by the claim the tokens are the
letters and `"7"`; but `int delim` holds 1, `IPvXRange` passes on `"a"` and the rest of
the string from index 3, and `U32Range` gives `high = 0`, not 7. The same shape with 5
letters is split at the delimiter by both. -/
theorem IPvXRange.long_string_tokens :
    FirstOccAt (List.replicate 4294967297 'a' ++ DELIM ++ ['7']) 4294967297 ∧
    IPvXRange.ofString ElemOps.echo (List.replicate 4294967297 'a' ++ DELIM ++ ['7'])
      = .ok { low := ['a'], high := List.replicate 4294967294 'a' ++ DELIM ++ ['7'] } ∧
    U32Range.ofString .w64 (List.replicate 4294967297 'a' ++ DELIM ++ ['7'])
      = .ok { low := 0, high := 0 } ∧
    IPvXRange.ofString ElemOps.echo (List.replicate 5 'a' ++ DELIM ++ ['7'])
      = .ok { low := List.replicate 5 'a', high := ['7'] } ∧
    U32Range.ofString .w64 (List.replicate 5 'a' ++ DELIM ++ ['7'])
      = .ok { low := 0, high := 7 } :=
  ⟨firstOccAt_letters 4294967297 ['7'],
    (ofString_letters_wrapped 1 4294967294 ['7'] (by decide) (by decide) (by decide)
      (by decide)).1,
    (ofString_letters_wrapped 1 4294967294 ['7'] (by decide) (by decide) (by decide)
      (by decide)).2, rfl, rfl⟩

/-- C13, the code at the failing input: on `2 ^ 32` letters `a` followed by `"..1"` the
placement of the delimiter is valid and the string constructor of the element type
fails on the left token, so that by the claim the constructor fails with that failure;
but `int delim` holds 0 and the constructor throws `InvalidString("Syntax error")`. On
the same shape with 5 letters the failure of the element type comes through. -/
theorem IPvXRange.long_string_syntax_error :
    ¬ BadDelim (List.replicate 4294967296 'a' ++ DELIM ++ ['1']) ∧
    FirstOccAt (List.replicate 4294967296 'a' ++ DELIM ++ ['1']) 4294967296 ∧
    ElemOps.reject.ofString
        (List.take 4294967296 (List.replicate 4294967296 'a' ++ DELIM ++ ['1']))
      = .error (List.take 4294967296 (List.replicate 4294967296 'a' ++ DELIM ++ ['1'])) ∧
    IPvXRange.ofString ElemOps.reject (List.replicate 4294967296 'a' ++ DELIM ++ ['1'])
      = .error (.own (.InvalidString "Syntax error")) ∧
    IPvXRange.ofString ElemOps.reject (List.replicate 5 'a' ++ DELIM ++ ['1'])
      = .error (.element (List.replicate 5 'a')) :=
  ⟨not_badDelim_letters 4294967296 ['1'] (by decide) (by decide),
    firstOccAt_letters 4294967296 ['1'], reject_ofString _,
    ofString_letters_zero 4294967296 ['1'] (by decide), rfl⟩

/-! ## Address-range round trip -/

/-- After a text that contains no `".."` and does not end in a dot, the first `".."`
of the string is the delimiter put after it. -/
theorem firstOccAt_append_of_no_delim (pre post : List Char) (hno : ¬ ContainsDelim pre)
    (hlast : pre.getLast? ≠ some '.') : FirstOccAt (pre ++ DELIM ++ post) pre.length := by
  constructor
  · simp [OccursAt, DELIM]
  · intro j hj hocc
    unfold OccursAt at hocc
    rw [List.append_assoc, List.drop_append_of_le_length (by omega)] at hocc
    by_cases hj2 : j + 1 < pre.length
    · apply hno
      refine ⟨j, hj, ?_⟩
      unfold OccursAt
      rw [← hocc, List.take_append_of_le_length (by rw [List.length_drop]; omega)]
    · have hj3 : j = pre.length - 1 := by omega
      rw [List.drop_eq_getElem_cons hj] at hocc
      simp only [DELIM, List.cons_append, List.take_succ_cons, List.cons.injEq] at hocc
      apply hlast
      rw [List.getLast?_eq_getElem?, ← hj3, List.getElem?_eq_getElem hj, hocc.1]

/-- C11 (as amended): address-range round trip. For `IPvXRange` over an element type
`T` to which the constant 0 converts without failure, and values `a`, `b` of `T` whose
`str()` the string constructor of `T` inverts, where both renderings are non-empty and
`a.str()` contains no `".."`, does not end in a dot and has fewer than `2 ^ 31 - 2`
characters: constructing from `a.str() ++ ".." ++ b.str()` succeeds with `low = a`
and `high = b`, and when `a < b`, `str()` of the result is the input string again. -/
theorem IPvXRange.ofString_str_pair {ε T : Type} (ops : ElemOps ε T) (z : T) (a b : T)
    (hz : ops.ofZero = .ok z)
    (ha : ops.ofString (ops.str a) = .ok a) (hb : ops.ofString (ops.str b) = .ok b)
    (hane : ops.str a ≠ []) (hbne : ops.str b ≠ [])
    (hano : ¬ ContainsDelim (ops.str a)) (hadot : (ops.str a).getLast? ≠ some '.')
    (hfit : (ops.str a).length + 2 < 2147483648) :
    ∃ r, IPvXRange.ofString ops (ops.str a ++ DELIM ++ ops.str b) = .ok r ∧
      r.low = a ∧ r.high = b ∧
      (ops.lt a b = true → IPvXRange.str ops r = ops.str a ++ DELIM ++ ops.str b) := by
  have hfirst := firstOccAt_append_of_no_delim (ops.str a) (ops.str b) hano hadot
  have hpa := List.length_pos.mpr hane
  have hpb := List.length_pos.mpr hbne
  have hfind := (find_some _ _).mpr hfirst
  have hd := delimOf_find_some _ _ hfind (by omega)
  have hlen : (ops.str a ++ DELIM ++ ops.str b).length
      = (ops.str a).length + 2 + (ops.str b).length := by
    simp only [List.length_append, DELIM, List.length_cons, List.length_nil]
  have htake : List.take (ops.str a).length (ops.str a ++ DELIM ++ ops.str b)
      = ops.str a := by
    rw [List.append_assoc, List.take_left']
    rfl
  have hdrop : List.drop ((ops.str a).length + 2) (ops.str a ++ DELIM ++ ops.str b)
      = ops.str b := by
    have : (ops.str a).length + 2 = (ops.str a ++ DELIM).length := by simp [DELIM]
    rw [this, List.drop_left']
    rfl
  refine ⟨{ low := a, high := b }, ?_, rfl, rfl, ?_⟩
  · rw [IPvXRange.ctor_of_delim ops z hz _ _ hd hpa (by omega) hfit, htake, hdrop]
    exact IPvXRange.ofTokens_pair_ok ops _ _ a b ha hb
  · intro hlt
    simp [IPvXRange.str, hlt]

/-- C11, witness: `"10.0.0.1..10.0.0.5"` with the 4-byte address type gives the two
addresses as `low` and `high`, and `str()` gives the input again. -/
theorem IPvXRange.ofString_str_pair_witness :
    (IPv4.ops.ofZero = .ok { addr := 0 } ∧
      IPv4.ops.ofString (IPv4.ops.str { addr := 167772161 }) = .ok { addr := 167772161 } ∧
      IPv4.ops.ofString (IPv4.ops.str { addr := 167772165 }) = .ok { addr := 167772165 } ∧
      IPv4.ops.str { addr := 167772161 } = "10.0.0.1".toList ∧
      IPv4.ops.str { addr := 167772165 } = "10.0.0.5".toList ∧
      ¬ ContainsDelim "10.0.0.1".toList ∧ "10.0.0.1".toList.getLast? ≠ some '.' ∧
      "10.0.0.1".toList.length + 2 < 2147483648 ∧
      IPv4.ops.lt { addr := 167772161 } { addr := 167772165 } = true) ∧
    ∃ r, IPvXRange.ofString IPv4.ops "10.0.0.1..10.0.0.5".toList = .ok r ∧
      r.low = { addr := 167772161 } ∧ r.high = { addr := 167772165 } ∧
      IPvXRange.str IPv4.ops r = "10.0.0.1..10.0.0.5".toList :=
  have ⟨r, h1, h2, h3, h4⟩ := IPvXRange.ofString_str_pair IPv4.ops { addr := 0 }
    { addr := 167772161 } { addr := 167772165 } rfl rfl rfl (by decide) (by decide)
    (by decide) (by decide) (by decide)
  ⟨⟨rfl, rfl, rfl, rfl, rfl, by decide, by decide, by decide, rfl⟩, r, h1, h2, h3, h4 rfl⟩

/-- C11, counterexample: to the element type with the renderings `"x."` and `"y"` the
constant 0 converts without failure, its string constructor inverts `str()`, and its
renderings are non-empty and contain no `".."`; yet on `"x." ++ ".." ++ "y"` the first
`".."` starts at index 1, the left token is `"x"`, and the constructor fails with the
failure of the element type. -/
theorem IPvXRange.trailing_dot_fails :
    ElemOps.trailingDot.ofZero = .ok false ∧
    (∀ v, ElemOps.trailingDot.ofString (ElemOps.trailingDot.str v) = .ok v) ∧
    (∀ v, ElemOps.trailingDot.str v ≠ []) ∧
    (∀ v, ¬ ContainsDelim (ElemOps.trailingDot.str v)) ∧
    ElemOps.trailingDot.str true ++ DELIM ++ ElemOps.trailingDot.str false = "x...y".toList ∧
    IPvXRange.ofString ElemOps.trailingDot
        (ElemOps.trailingDot.str true ++ DELIM ++ ElemOps.trailingDot.str false)
      = .error (.element ()) := by
  refine ⟨rfl, ?_, ?_, ?_, rfl, rfl⟩
  · intro v; cases v <;> rfl
  · intro v; cases v <;> decide
  · intro v; cases v <;> decide

end Xorp
